import Mathlib

/-!
# Verification of the causica dataset-format decoder

A shallow embedding of `causica/datasets/causica_dataset_format.py`: variable
metadata is parsed into an ordered catalog of named groups, flat 2D numeric
matrices are sliced into per-group typed fields, categorical fields are one-hot
expanded, and JSON experiment descriptors are reconstructed into intervention
and counterfactual records.

Numeric tensor contents are modelled as rational numbers with exact equality
(`torch.allclose` is modelled as equality of values).  Python `dict`s are
modelled as association lists with the source's insertion/overwrite semantics.
Fallible code (python `assert`, `raise`, `KeyError`, `IndexError`) is modelled
with `Except String`.
-/

namespace Causica

/-- The variable type tags, as in `variable_types.VariableTypeEnum`. -/
inductive VariableTypeEnum where
  | continuous
  | binary
  | categorical
  | text
deriving DecidableEq, Repr

/-- Numeric dtypes that slices get cast to.

Modelled from the spec: the fixed lookup table `DTYPE_MAP` lives in
`variable_types`, outside the given source; the spec describes it as an
implicit global type registry mapping each variable-type tag to a numeric
dtype. -/
inductive DType where
  | float32
  | boolD
  | longD
  | textD
deriving DecidableEq, Repr

/-- Modelled from the spec: the registry maps each tag to its dtype. -/
def DTYPE_MAP : VariableTypeEnum → DType
  | .continuous => .float32
  | .binary => .boolD
  | .categorical => .longD
  | .text => .textD

/-- Truncation toward zero, as torch does when casting float to long. -/
def ratTrunc (q : ℚ) : ℤ := if 0 ≤ q then ⌊q⌋ else ⌈q⌉

/-- Modelled from the spec: casting a slice value to the group's declared
numeric type (torch `.to(dtype)` is outside the given source). -/
def castValue : DType → ℚ → ℚ
  | .float32, q => q
  | .boolD, q => if q = 0 then 0 else 1
  | .longD, q => (ratTrunc q : ℚ)
  | .textD, q => q

/-- One entry of the `variables` metadata list. -/
structure VariableDescriptor where
  group_name : String
  type : VariableTypeEnum
  lower : Option ℤ
  upper : Option ℤ
deriving DecidableEq, Repr

/-- A numpy array as it reaches the decoder: its shape together with its
row-major content (the rows are meaningful when the array is 2-dimensional). -/
structure NDArray where
  shape : List ℕ
  rows : List (List ℚ)
deriving DecidableEq, Repr

def NDArray.ndim (a : NDArray) : ℕ := a.shape.length

def NDArray.nrows (a : NDArray) : ℕ := a.shape.headD 0

def NDArray.ncols (a : NDArray) : ℕ := (a.shape.drop 1).headD 0

/-- Well-formedness of a 2-dimensional array: the declared shape matches the
actual rows. -/
def NDArray.wf2d (a : NDArray) : Prop :=
  a.shape = [a.rows.length, a.ncols] ∧ ∀ r ∈ a.rows, r.length = a.ncols

instance (a : NDArray) : Decidable a.wf2d := by
  unfold NDArray.wf2d; exact inferInstance

/-! ## Association lists with python `dict` semantics -/

/-- Lookup of the first entry with the given key (dicts built without
duplicate keys read the same from either end). -/
def alistLookup {β : Type} : List (String × β) → String → Option β
  | [], _ => none
  | p :: rest, g => if p.1 = g then some p.2 else alistLookup rest g

/-- Lookup of the last entry with the given key: the value a python dict
built from a list of pairs would hold (later assignments overwrite). -/
def lastLookup {α β : Type} [DecidableEq α] : List (α × β) → α → Option β
  | [], _ => none
  | p :: rest, k =>
    match lastLookup rest k with
    | some v => some v
    | none => if p.1 = k then some p.2 else none

/-- Python `d[k] = v` on a dict represented as an association list without
duplicate keys: overwrite in place if present, else append. -/
def dictUpdate {β : Type} (d : List (String × β)) (k : String) (v : β) :
    List (String × β) :=
  if d.any (fun p => p.1 = k) then
    d.map (fun p => if p.1 = k then (p.1, v) else p)
  else d ++ [(k, v)]

/-! ## The variable catalog -/

/-- First-seen deduplication of a list of names, carrying the names already
seen. -/
def firstSeenAux (seen : List String) : List String → List String
  | [] => []
  | a :: rest =>
    if a ∈ seen then firstSeenAux seen rest
    else a :: firstSeenAux (a :: seen) rest

/-- Distinct group names in first-seen order: the key order of
`Counter(d["group_name"] for d in variables_list)`. -/
def firstSeenNames (vl : List VariableDescriptor) : List String :=
  firstSeenAux [] (vl.map (fun d => d.group_name))

/-- Number of descriptors sharing a group name: the `Counter` count. -/
def groupWidth (vl : List VariableDescriptor) (g : String) : ℕ :=
  (vl.filter (fun d => d.group_name = g)).length

/-- The `sizes` counter of `tensordict_from_variables_metadata`: group names in
first-seen order, each with its descriptor count. -/
def sizesList (vl : List VariableDescriptor) : List (String × ℕ) :=
  (firstSeenNames vl).map (fun g => (g, groupWidth vl g))

/-- `sum(sizes.values())`: the total declared width of the catalog. -/
def totalWidth (vl : List VariableDescriptor) : ℕ :=
  ((sizesList vl).map (fun p => p.2)).sum

/-- The `dtypes` dict comprehension
`{item["group_name"]: DTYPE_MAP[item["type"]] for item in variables_list}`:
the last descriptor with a given name wins. -/
def dtypeOf (vl : List VariableDescriptor) (g : String) : DType :=
  (lastLookup (vl.map (fun d => (d.group_name, DTYPE_MAP d.type))) g).getD DType.float32

/-- The last descriptor carrying a given group name, if any. -/
def lastDesc (vl : List VariableDescriptor) (g : String) : Option VariableDescriptor :=
  lastLookup (vl.map (fun d => (d.group_name, d))) g

/-! ## TensorDicts and the column-group slicer -/

/-- One value of a TensorDict: the dtype the slice was cast to, together with
the cast rows. -/
structure TDEntry where
  dtype : DType
  values : List (List ℚ)
deriving DecidableEq, Repr

/-- A TensorDict: an insertion-ordered mapping from group name to entry. -/
structure TensorDictM where
  entries : List (String × TDEntry)
deriving DecidableEq, Repr

/-- Whether every row of an entry equals the entry's first row:
the body of the constant-intervention assertion. -/
def entryConst (e : TDEntry) : Bool :=
  e.values.all (fun r => r = e.values.headD [])

/-- The column slice `data[:, start : start + len]`. -/
def sliceCols (rows : List (List ℚ)) (start len : ℕ) : List (List ℚ) :=
  rows.map (fun r => (r.drop start).take len)

/-- Elementwise dtype cast of a 2D slice (`torch.Tensor(...).to(dtype=...)`). -/
def castRows (dt : DType) (rows : List (List ℚ)) : List (List ℚ) :=
  rows.map (fun r => r.map (castValue dt))

/-- The slicing loop of `tensordict_from_variables_metadata`: consume the
declared widths left to right from column `curr`. -/
def buildSlices (rows : List (List ℚ)) (dt : String → DType) :
    List (String × ℕ) → ℕ → List (String × TDEntry)
  | [], _ => []
  | (g, len) :: rest, curr =>
    (g, ⟨dt g, castRows (dt g) (sliceCols rows curr len)⟩) ::
      buildSlices rows dt rest (curr + len)

/-- `tensordict_from_variables_metadata`: check the array is 2D, check the
declared widths sum to the column count, then slice contiguously in catalog
order, casting each slice to its group's dtype. -/
def tensordict_from_variables_metadata (data : NDArray)
    (variables_list : List VariableDescriptor) : Except String TensorDictM :=
  if data.ndim ≠ 2 then .error "Numpy loading only supported for 2d data"
  else if totalWidth variables_list ≠ data.ncols then
    .error "Variable sizes do not match data shape"
  else .ok ⟨buildSlices data.rows (dtypeOf variables_list) (sizesList variables_list) 0⟩

/-! ## Categorical sizes and one-hot expansion -/

/-- The loop body of `_get_categorical_sizes`, written as structural recursion
over the descriptor list with the accumulated dict. -/
def get_categorical_sizes_aux (acc : List (String × ℤ)) :
    List VariableDescriptor → Except String (List (String × ℤ))
  | [] => .ok acc
  | item :: rest =>
    if item.type = VariableTypeEnum.categorical then
      match item.upper, item.lower with
      | some u, some l =>
        get_categorical_sizes_aux (dictUpdate acc item.group_name (u - l + 1)) rest
      | none, none =>
        get_categorical_sizes_aux (dictUpdate acc item.group_name (-1)) rest
      | _, _ => .error "Please specify either both limits or neither"
    else get_categorical_sizes_aux acc rest

/-- `_get_categorical_sizes`: for categorical descriptors, size
`upper - lower + 1` when both bounds are present, `-1` when neither is, and a
failed assertion when exactly one is. -/
def get_categorical_sizes (variables_list : List VariableDescriptor) :
    Except String (List (String × ℤ)) :=
  get_categorical_sizes_aux [] variables_list

/-- A one-hot indicator row of width `n` for a raw category index. -/
def oneHotRow (n : ℕ) (r : List ℚ) : List ℚ :=
  (List.range n).map (fun i => if r.headD 0 = (i : ℚ) then 1 else 0)

/-- One-hot expansion of a whole entry, row by row. -/
def oneHotEntry (e : TDEntry) (n : ℕ) : TDEntry :=
  ⟨e.dtype, e.values.map (oneHotRow n)⟩

/-- Replace the entry under key `k` by `v`, keeping position and other keys. -/
def setEntry (entries : List (String × TDEntry)) (k : String) (v : TDEntry) :
    List (String × TDEntry) :=
  entries.map (fun p => if p.1 = k then (p.1, v) else p)

/-- `convert_one_hot` (lives in `tensordict_utils`, outside the given source).

Modelled from the spec: for each group named in the sizes mapping, the group's
columns are replaced by a one-hot expansion to the given width when the size is
non-negative, and left unchanged when the size is the sentinel `-1`; naming a
group that is absent from the record is a lookup failure (`KeyError`), which is
why the source intersects the sizes with the record's keys first. -/
def convert_one_hot (td : TensorDictM) :
    List (String × ℤ) → Except String TensorDictM
  | [] => .ok td
  | p :: rest =>
    match alistLookup td.entries p.1 with
    | none => .error "KeyError"
    | some e =>
      if 0 ≤ p.2 then
        convert_one_hot ⟨setEntry td.entries p.1 (oneHotEntry e p.2.toNat)⟩ rest
      else convert_one_hot td rest

/-- `_intersect_dicts_left`: keys present in both dicts, values from the
first. -/
def intersect_dicts_left {β γ : Type} (d1 : List (String × β)) (d2 : List (String × γ)) :
    List (String × β) :=
  d1.filter (fun p => d2.any (fun q => q.1 = p.1))

/-! ## Intervention and counterfactual reconstruction -/

/-- The decoded `InterventionData` record. -/
structure InterventionData where
  intervention_values : TensorDictM
  intervention_data : TensorDictM
  condition_values : TensorDictM
deriving DecidableEq, Repr

/-- The decoded `CounterfactualData` record. -/
structure CounterfactualData where
  intervention_values : TensorDictM
  counterfactual_data : TensorDictM
  factual_data : TensorDictM
deriving DecidableEq, Repr

/-- The single-row TensorDict value `first_row[node]` (`interv_data[0]`
restricted to one key). -/
def firstRowEntry (e : TDEntry) : TDEntry :=
  ⟨e.dtype, [e.values.headD []]⟩

/-- The python assertion
`assert all(torch.allclose(interv_data[n], first_row[n]) for n in nodes)`:
look each node up in order (`KeyError` if absent) and require every row of its
entry to equal the entry's first row. -/
def checkConstant (td : TensorDictM) : List String → Except String Unit
  | [] => .ok ()
  | g :: rest =>
    match alistLookup td.entries g with
    | none => .error "KeyError"
    | some e =>
      if entryConst e then checkConstant td rest
      else .error "AssertionError: intervention values differ across the batch"

/-- The dict comprehension `{n: first_row[n] for n in nodes}`. -/
def selectFirstRows (td : TensorDictM) : List String → Except String TensorDictM
  | [] => .ok ⟨[]⟩
  | g :: rest =>
    match alistLookup td.entries g with
    | none => .error "KeyError"
    | some e =>
      match selectFirstRows td rest with
      | .error msg => .error msg
      | .ok tail => .ok ⟨(g, firstRowEntry e) :: tail.entries⟩

/-- `_to_intervention`: slice the batch, take the first row (`IndexError` on an
empty batch), assert the intervened groups are constant across the batch,
gather intervention and condition values from the first row, and one-hot
convert all three records against the categorical sizes intersected with each
record's own keys. -/
def to_intervention (data : NDArray) (intervention_nodes condition_nodes : List String)
    (variables_list : List VariableDescriptor) : Except String InterventionData :=
  match tensordict_from_variables_metadata data variables_list with
  | .error msg => .error msg
  | .ok interv_data =>
    if data.nrows = 0 then .error "IndexError"
    else
      match checkConstant interv_data intervention_nodes with
      | .error msg => .error msg
      | .ok _ =>
        match selectFirstRows interv_data intervention_nodes with
        | .error msg => .error msg
        | .ok intervention_values =>
          match selectFirstRows interv_data condition_nodes with
          | .error msg => .error msg
          | .ok condition_values =>
            match get_categorical_sizes variables_list with
            | .error msg => .error msg
            | .ok categorical_sizes =>
              match convert_one_hot intervention_values
                  (intersect_dicts_left categorical_sizes intervention_values.entries) with
              | .error msg => .error msg
              | .ok iv =>
                match convert_one_hot interv_data
                    (intersect_dicts_left categorical_sizes interv_data.entries) with
                | .error msg => .error msg
                | .ok idata =>
                  match convert_one_hot condition_values
                      (intersect_dicts_left categorical_sizes condition_values.entries) with
                  | .error msg => .error msg
                  | .ok cv => .ok ⟨iv, idata, cv⟩

/-- `_to_counterfactual`: like `_to_intervention` but with factual data sliced
from the base observations and no conditioning values. -/
def to_counterfactual (data base_data : NDArray) (intervention_nodes : List String)
    (variables_list : List VariableDescriptor) : Except String CounterfactualData :=
  match tensordict_from_variables_metadata data variables_list with
  | .error msg => .error msg
  | .ok interv_data =>
    if data.nrows = 0 then .error "IndexError"
    else
      match checkConstant interv_data intervention_nodes with
      | .error msg => .error msg
      | .ok _ =>
        match selectFirstRows interv_data intervention_nodes with
        | .error msg => .error msg
        | .ok intervention_values =>
          match tensordict_from_variables_metadata base_data variables_list with
          | .error msg => .error msg
          | .ok factual_data =>
            match get_categorical_sizes variables_list with
            | .error msg => .error msg
            | .ok categorical_sizes =>
              match convert_one_hot intervention_values
                  (intersect_dicts_left categorical_sizes intervention_values.entries) with
              | .error msg => .error msg
              | .ok iv =>
                match convert_one_hot interv_data
                    (intersect_dicts_left categorical_sizes interv_data.entries) with
                | .error msg => .error msg
                | .ok cfd =>
                  match convert_one_hot factual_data
                      (intersect_dicts_left categorical_sizes factual_data.entries) with
                  | .error msg => .error msg
                  | .ok fd => .ok ⟨iv, cfd, fd⟩

/-- `InterventionData.sampled_nodes` (defined in `interventional_data`,
outside the given source).

Modelled from the spec: the fallback effect set is the full set of group
names present in the reconstructed intervention data. -/
def InterventionData.sampled_nodes (i : InterventionData) : Finset String :=
  (i.intervention_data.entries.map (fun p => p.1)).toFinset

/-- `CounterfactualData.sampled_nodes` (defined in `interventional_data`,
outside the given source).

Modelled from the spec: the fallback effect set is the full set of group
names present in the reconstructed counterfactual data. -/
def CounterfactualData.sampled_nodes (c : CounterfactualData) : Finset String :=
  (c.counterfactual_data.entries.map (fun p => p.1)).toFinset

/-- One environment of an `interventions.json` descriptor. -/
structure IntervEnvironment where
  conditioning_idxs : Option (List ℤ)
  intervention_idxs : List ℤ
  effect_idxs : List ℤ
  test_data : NDArray
  reference_data : Option NDArray
deriving Repr

/-- One environment of a `counterfactuals.json` descriptor. -/
structure CFEnvironment where
  conditioning_values : NDArray
  intervention_idxs : List ℤ
  effect_idxs : List ℤ
  test_data : NDArray
  reference_data : Option NDArray
deriving Repr

/-- The `intervened_column_to_group_name` dict:
`dict(zip(columns_to_nodes, [d["group_name"] for d in variables_list]))`.
`zip` truncates to the shorter list and duplicate keys are overwritten by
later pairs. -/
def colMapLookup (columns_to_nodes : List ℤ) (vl : List VariableDescriptor)
    (idx : ℤ) : Option String :=
  lastLookup (List.zip columns_to_nodes (vl.map (fun d => d.group_name))) idx

/-- Resolve a list of experiment-file column indices to group names;
an unmapped index is a `KeyError`. -/
def resolveNodes (columns_to_nodes : List ℤ) (vl : List VariableDescriptor) :
    List ℤ → Except String (List String)
  | [] => .ok []
  | idx :: rest =>
    match colMapLookup columns_to_nodes vl idx with
    | none => .error "KeyError"
    | some g =>
      match resolveNodes columns_to_nodes vl rest with
      | .error msg => .error msg
      | .ok tail => .ok (g :: tail)

/-- The body of the `_load_interventions` loop for one environment. -/
def load_intervention_env (columns_to_nodes : List ℤ)
    (vl : List VariableDescriptor) (env : IntervEnvironment) :
    Except String (InterventionData × InterventionData × Finset String) :=
  match (match env.conditioning_idxs with
         | none => Except.ok []
         | some idxs => resolveNodes columns_to_nodes vl idxs) with
  | .error msg => .error msg
  | .ok condition_nodes =>
    match resolveNodes columns_to_nodes vl env.intervention_idxs with
    | .error msg => .error msg
    | .ok intervention_nodes =>
      match to_intervention env.test_data intervention_nodes condition_nodes vl with
      | .error msg => .error msg
      | .ok intervention =>
        match env.reference_data with
        | none => .error "RuntimeError"
        | some ref_data =>
          match to_intervention ref_data intervention_nodes condition_nodes vl with
          | .error msg => .error msg
          | .ok reference =>
            match resolveNodes columns_to_nodes vl env.effect_idxs with
            | .error msg => .error msg
            | .ok effect_names =>
              let effect_nodes := effect_names.toFinset
              .ok (intervention, reference,
                if effect_nodes = ∅ then intervention.sampled_nodes else effect_nodes)

/-- `_load_interventions`: process the environments in order, failing on the
first faulty one. -/
def load_interventions (columns_to_nodes : List ℤ)
    (vl : List VariableDescriptor) :
    List IntervEnvironment →
      Except String (List (InterventionData × InterventionData × Finset String))
  | [] => .ok []
  | env :: rest =>
    match load_intervention_env columns_to_nodes vl env with
    | .error msg => .error msg
    | .ok x =>
      match load_interventions columns_to_nodes vl rest with
      | .error msg => .error msg
      | .ok tail => .ok (x :: tail)

/-- The body of the `_load_counterfactuals` loop for one environment. -/
def load_counterfactual_env (columns_to_nodes : List ℤ)
    (vl : List VariableDescriptor) (env : CFEnvironment) :
    Except String (CounterfactualData × Option CounterfactualData × Finset String) :=
  match resolveNodes columns_to_nodes vl env.intervention_idxs with
  | .error msg => .error msg
  | .ok intervention_nodes =>
    match to_counterfactual env.test_data env.conditioning_values intervention_nodes vl with
    | .error msg => .error msg
    | .ok intervention =>
      match (match env.reference_data with
             | none => Except.ok Option.none
             | some ref_data =>
               match to_counterfactual ref_data env.conditioning_values intervention_nodes vl with
               | .error msg => Except.error msg
               | .ok r => Except.ok (some r)) with
      | .error msg => .error msg
      | .ok reference =>
        match resolveNodes columns_to_nodes vl env.effect_idxs with
        | .error msg => .error msg
        | .ok effect_names =>
          let effect_nodes := effect_names.toFinset
          .ok (intervention, reference,
            if effect_nodes = ∅ then intervention.sampled_nodes else effect_nodes)

/-- `_load_counterfactuals`: process the environments in order, failing on the
first faulty one. -/
def load_counterfactuals (columns_to_nodes : List ℤ)
    (vl : List VariableDescriptor) :
    List CFEnvironment →
      Except String (List (CounterfactualData × Option CounterfactualData × Finset String))
  | [] => .ok []
  | env :: rest =>
    match load_counterfactual_env columns_to_nodes vl env with
    | .error msg => .error msg
    | .ok x =>
      match load_counterfactuals columns_to_nodes vl rest with
      | .error msg => .error msg
      | .ok tail => .ok (x :: tail)

/-- Row-wise concatenation of a list of 2D blocks (`torch.cat(..., dim=-1)`). -/
def rowConcat : List (List (List ℚ)) → List (List ℚ)
  | [] => []
  | [v] => v
  | v :: rest => List.zipWith (fun a b => a ++ b) v (rowConcat rest)

/-- `tensordict_to_tensor`: concatenate the values along the last dimension,
in iteration order.  `torch.cat` of an empty sequence of tensors raises. -/
def tensordict_to_tensor (td : TensorDictM) : Except String (List (List ℚ)) :=
  match td.entries with
  | [] => .error "RuntimeError: torch.cat expected a non-empty sequence"
  | es => .ok (rowConcat (es.map (fun p => p.2.values)))

/-! ## Specification-side helper definitions -/

/-- A descriptor with exactly one of the two categorical bounds declared:
the configuration the source's assertion rejects. -/
def badBounds (d : VariableDescriptor) : Prop :=
  d.type = VariableTypeEnum.categorical ∧ d.upper.isSome ≠ d.lower.isSome

instance (d : VariableDescriptor) : Decidable (badBounds d) := by
  unfold badBounds; exact inferInstance

/-- The declared one-hot size of a categorical descriptor. -/
def boundsSize (d : VariableDescriptor) : ℤ :=
  match d.upper, d.lower with
  | some u, some l => u - l + 1
  | _, _ => -1

/-- The last categorical descriptor carrying a given group name, if any. -/
def lastCatDesc (vl : List VariableDescriptor) (g : String) :
    Option VariableDescriptor :=
  lastLookup (vl.filterMap (fun d =>
    if d.type = VariableTypeEnum.categorical then some (d.group_name, d) else none)) g

/-- The entry `convert_one_hot` leaves for a given key after the source
intersects the sizes with the record's keys. -/
def oneHotTransform (sizes : List (String × ℤ)) (g : String) (e : TDEntry) : TDEntry :=
  match alistLookup sizes g with
  | some n => if 0 ≤ n then oneHotEntry e n.toNat else e
  | none => e

/-- Specification mirror of the slicing loop fused with a key lookup: the slice
the decoder assigns to key `g`, scanning the declared widths from column
`curr`. -/
def sliceSpec (rows : List (List ℚ)) (dt : String → DType) :
    List (String × ℕ) → ℕ → String → Option TDEntry
  | [], _, _ => none
  | (k, len) :: rest, curr, g =>
    if k = g then some ⟨dt g, castRows (dt g) (sliceCols rows curr len)⟩
    else sliceSpec rows dt rest (curr + len) g

/-- The first column of a group in the flat matrix: the total width of the
groups that precede it in first-seen catalog order. -/
def offsetOf (vl : List VariableDescriptor) (g : String) : ℕ :=
  (((firstSeenNames vl).takeWhile (fun g' => g' ≠ g)).map (groupWidth vl)).sum

/-! ## Concrete inputs (the spec's §8.6 scenario and small variations) -/

/-- The spec's concrete catalog: a continuous scalar `x` and a categorical
`y` with bounds 0..1. -/
def exVl : List VariableDescriptor :=
  [⟨"x", .continuous, none, none⟩, ⟨"y", .categorical, some 0, some 1⟩]

/-- The spec's concrete data matrix `[[1.0, 0], [1.0, 1]]`. -/
def exData : NDArray := ⟨[2, 2], [[1, 0], [1, 1]]⟩

/-- `exData` sliced against `exVl` (the value of
`tensordict_from_variables_metadata exData exVl`). -/
def exTd : TensorDictM :=
  ⟨[("x", ⟨.float32, [[1], [1]]⟩), ("y", ⟨.longD, [[0], [1]]⟩)]⟩

/-- A batch whose intervened group `x` is not constant across rows. -/
def exDataBad : NDArray := ⟨[2, 2], [[1, 0], [2, 1]]⟩

/-- `exDataBad` sliced against `exVl` (the value of
`tensordict_from_variables_metadata exDataBad exVl`). -/
def exTdBad : TensorDictM :=
  ⟨[("x", ⟨.float32, [[1], [2]]⟩), ("y", ⟨.longD, [[0], [1]]⟩)]⟩

/-- An intervention environment intervening on column 0 with a reference. -/
def exEnv : IntervEnvironment := ⟨none, [0], [], exData, some exData⟩

/-- An intervention environment with `reference_data = null`. -/
def exEnvNoRef : IntervEnvironment := ⟨none, [0], [], exData, none⟩

/-- A counterfactual environment with `reference_data = null` and a declared
effect column. -/
def exCf : CFEnvironment := ⟨exData, [0], [1], exData, none⟩

/-- A descriptor list whose two descriptors share a group but disagree on the
variable type. -/
def exVlDup : List VariableDescriptor :=
  [⟨"g", .continuous, none, none⟩, ⟨"g", .categorical, some 0, some 1⟩]

/-- A one-row matrix matching `exVlDup`'s two columns. -/
def exDataDup : NDArray := ⟨[1, 2], [[5, 7]]⟩

/-! ## Basic lemmas about the dictionary model -/

theorem exceptIsOk_exists {ε α : Type} {e : Except ε α} (h : e.isOk = true) :
    ∃ v, e = .ok v := by
  cases e with
  | error msg => simp [Except.isOk, Except.toBool] at h
  | ok v => exact ⟨v, rfl⟩

theorem alistLookup_eq_none {β : Type} (l : List (String × β)) (g : String) :
    alistLookup l g = none ↔ g ∉ l.map (fun p => p.1) := by
  induction l with
  | nil => simp [alistLookup]
  | cons p rest ih =>
    simp only [alistLookup, List.map_cons, List.mem_cons]
    by_cases h : p.1 = g
    · simp [h]
    · rw [if_neg h, ih]
      constructor
      · intro hn hc
        rcases hc with hc | hc
        · exact h hc.symm
        · exact hn hc
      · intro hn hc
        exact hn (Or.inr hc)

theorem alistLookup_isSome {β : Type} (l : List (String × β)) (g : String)
    (h : g ∈ l.map (fun p => p.1)) : ∃ v, alistLookup l g = some v := by
  cases hv : alistLookup l g with
  | none => exact absurd ((alistLookup_eq_none l g).mp hv) (by simpa using h)
  | some v => exact ⟨v, rfl⟩

theorem alistLookup_of_mem {β : Type} {l : List (String × β)}
    (hnd : (l.map (fun p => p.1)).Nodup) {p : String × β} (hp : p ∈ l) :
    alistLookup l p.1 = some p.2 := by
  induction l with
  | nil => cases hp
  | cons q rest ih =>
    simp only [List.map_cons, List.nodup_cons] at hnd
    rcases List.mem_cons.mp hp with rfl | h
    · simp [alistLookup]
    · have hne : q.1 ≠ p.1 := by
        intro he
        exact hnd.1 (he ▸ List.mem_map.mpr ⟨p, h, rfl⟩)
      simp [alistLookup, hne, ih hnd.2 h]

theorem alistLookup_append {β : Type} (l : List (String × β)) (k g : String) (v : β) :
    alistLookup (l ++ [(k, v)]) g =
      match alistLookup l g with
      | some w => some w
      | none => if k = g then some v else none := by
  induction l with
  | nil => simp [alistLookup]
  | cons p rest ih =>
    by_cases h : p.1 = g <;> simp [alistLookup, h, ih]

theorem alistLookup_map_entry {β γ : Type} (T : String → β → γ)
    (l : List (String × β)) (g : String) :
    alistLookup (l.map (fun p => (p.1, T p.1 p.2))) g =
      (alistLookup l g).map (T g) := by
  induction l with
  | nil => simp [alistLookup]
  | cons p rest ih =>
    by_cases h : p.1 = g
    · subst h; simp [alistLookup]
    · simp [alistLookup, h, ih]

theorem lastLookup_mem {α β : Type} [DecidableEq α] {l : List (α × β)} {k : α} {v : β}
    (h : lastLookup l k = some v) : (k, v) ∈ l := by
  induction l with
  | nil => simp [lastLookup] at h
  | cons p rest ih =>
    obtain ⟨a, b⟩ := p
    rw [lastLookup] at h
    cases h' : lastLookup rest k with
    | some w =>
      rw [h'] at h
      injection h with h
      subst h
      exact List.mem_cons_of_mem _ (ih h')
    | none =>
      rw [h'] at h
      by_cases hk : a = k
      · rw [if_pos hk] at h
        injection h with h
        subst hk; subst h
        exact List.mem_cons_self _ _
      · rw [if_neg hk] at h
        cases h

theorem lastLookup_eq_none {α β : Type} [DecidableEq α] (l : List (α × β)) (k : α) :
    lastLookup l k = none ↔ k ∉ l.map (fun p => p.1) := by
  induction l with
  | nil => simp [lastLookup]
  | cons p rest ih =>
    rw [lastLookup]
    simp only [List.map_cons, List.mem_cons]
    cases h : lastLookup rest k with
    | some v =>
      constructor
      · intro hc; cases hc
      · intro hc
        exact absurd (Or.inr (List.mem_map.mpr ⟨(k, v), lastLookup_mem h, rfl⟩)) hc
    | none =>
      by_cases hk : p.1 = k
      · constructor
        · intro hc; rw [if_pos hk] at hc; cases hc
        · intro hc; exact absurd (Or.inl hk.symm) hc
      · rw [if_neg hk]
        constructor
        · intro _ hc
          rcases hc with hc | hc
          · exact hk hc.symm
          · exact (ih.mp h) hc
        · intro _; rfl

theorem lastLookup_map_snd {α β γ : Type} [DecidableEq α] (f : β → γ)
    (l : List (α × β)) (k : α) :
    lastLookup (l.map (fun p => (p.1, f p.2))) k = (lastLookup l k).map f := by
  induction l with
  | nil => simp [lastLookup]
  | cons p rest ih =>
    simp only [List.map_cons]
    rw [lastLookup, lastLookup, ih]
    cases lastLookup rest k with
    | some v => simp
    | none => by_cases hk : p.1 = k <;> simp [hk]

theorem alistLookup_map_update_other {β : Type} (l : List (String × β)) (k g : String)
    (v : β) (hne : g ≠ k) :
    alistLookup (l.map (fun p => if p.1 = k then (p.1, v) else p)) g =
      alistLookup l g := by
  have hkg : ¬ k = g := fun h => hne h.symm
  induction l with
  | nil => simp [alistLookup]
  | cons p rest ih =>
    by_cases hpk : p.1 = k
    · have hpg : ¬ p.1 = g := fun h => hne (by rw [← h, hpk])
      simp [alistLookup, hpk, hpg, hkg, ih]
    · by_cases hpg : p.1 = g <;> simp [alistLookup, hpk, hpg, hkg, hne, ih]

theorem alistLookup_map_update_self {β : Type} (l : List (String × β)) (k : String)
    (v : β) (hk : k ∈ l.map (fun p => p.1)) :
    alistLookup (l.map (fun p => if p.1 = k then (p.1, v) else p)) k = some v := by
  induction l with
  | nil => simp at hk
  | cons p rest ih =>
    by_cases hpk : p.1 = k
    · simp [alistLookup, hpk]
    · have hk' : k ∈ rest.map (fun p => p.1) := by
        simp only [List.map_cons, List.mem_cons] at hk
        rcases hk with h | h
        · exact absurd h.symm hpk
        · exact h
      simp [alistLookup, hpk, ih hk']

theorem alistLookup_dictUpdate {β : Type} (d : List (String × β)) (k g : String)
    (v : β) :
    alistLookup (dictUpdate d k v) g = if g = k then some v else alistLookup d g := by
  unfold dictUpdate
  by_cases hany : d.any (fun p => p.1 = k)
  · rw [if_pos hany]
    by_cases hg : g = k
    · subst hg
      have hk : g ∈ d.map (fun p => p.1) := by
        rcases List.any_eq_true.mp hany with ⟨p, hp, hpk⟩
        exact List.mem_map.mpr ⟨p, hp, by simpa using hpk⟩
      simp [alistLookup_map_update_self d g v hk]
    · simp [alistLookup_map_update_other d k g v hg, hg]
  · rw [if_neg hany]
    rw [alistLookup_append]
    have hnone : g = k → alistLookup d g = none := by
      intro hg; subst hg
      rw [alistLookup_eq_none]
      intro hmem
      rcases List.mem_map.mp hmem with ⟨p, hp, hpk⟩
      exact hany (List.any_eq_true.mpr ⟨p, hp, by simpa using hpk⟩)
    by_cases hg : g = k
    · subst hg
      rw [hnone rfl]
    · have hkg : ¬ k = g := fun hc => hg hc.symm
      cases h : alistLookup d g <;> simp [h, hg, hkg]

theorem dictUpdate_keys_nodup {β : Type} {d : List (String × β)}
    (h : (d.map (fun p => p.1)).Nodup) (k : String) (v : β) :
    ((dictUpdate d k v).map (fun p => p.1)).Nodup := by
  unfold dictUpdate
  by_cases hany : d.any (fun p => p.1 = k)
  · rw [if_pos hany]
    have : (d.map (fun p => if p.1 = k then (p.1, v) else p)).map (fun p => p.1) =
        d.map (fun p => p.1) := by
      rw [List.map_map]
      exact List.map_congr_left (fun p _ => by by_cases hpk : p.1 = k <;> simp [hpk])
    rw [this]; exact h
  · rw [if_neg hany]
    rw [List.map_append, List.nodup_append]
    refine ⟨h, by simp, ?_⟩
    intro x hx hx'
    simp only [List.map_cons, List.map_nil, List.mem_singleton] at hx'
    subst hx'
    rcases List.mem_map.mp hx with ⟨p, hp, hpk⟩
    exact hany (List.any_eq_true.mpr ⟨p, hp, by simpa using hpk⟩)

/-! ## Lemmas about the catalog -/

theorem mem_firstSeenAux (g : String) :
    ∀ (l : List String) (seen : List String),
      g ∈ firstSeenAux seen l ↔ g ∈ l ∧ g ∉ seen := by
  intro l
  induction l with
  | nil => intro seen; simp [firstSeenAux]
  | cons a rest ih =>
    intro seen
    rw [firstSeenAux]
    by_cases ha : a ∈ seen
    · rw [if_pos ha, ih]
      constructor
      · rintro ⟨h1, h2⟩
        exact ⟨List.mem_cons_of_mem _ h1, h2⟩
      · rintro ⟨h1, h2⟩
        rcases List.mem_cons.mp h1 with rfl | h1
        · exact absurd ha h2
        · exact ⟨h1, h2⟩
    · rw [if_neg ha]
      simp only [List.mem_cons]
      rw [ih]
      constructor
      · rintro (rfl | ⟨h1, h2⟩)
        · exact ⟨Or.inl rfl, ha⟩
        · exact ⟨Or.inr h1, fun hc => h2 (List.mem_cons_of_mem _ hc)⟩
      · rintro ⟨h1 | h1, h2⟩
        · exact Or.inl h1
        · by_cases hga : g = a
          · exact Or.inl hga
          · exact Or.inr ⟨h1, fun hc => (List.mem_cons.mp hc).elim hga h2⟩

theorem mem_firstSeenNames {g : String} {vl : List VariableDescriptor} :
    g ∈ firstSeenNames vl ↔ ∃ d ∈ vl, d.group_name = g := by
  unfold firstSeenNames
  rw [mem_firstSeenAux]
  constructor
  · rintro ⟨h1, _⟩
    obtain ⟨d, hd, rfl⟩ := List.mem_map.mp h1
    exact ⟨d, hd, rfl⟩
  · rintro ⟨d, hd, rfl⟩
    exact ⟨List.mem_map.mpr ⟨d, hd, rfl⟩, List.not_mem_nil _⟩

theorem nodup_firstSeenAux :
    ∀ (l seen : List String), (firstSeenAux seen l).Nodup := by
  intro l
  induction l with
  | nil => intro seen; simp [firstSeenAux]
  | cons a rest ih =>
    intro seen
    rw [firstSeenAux]
    by_cases ha : a ∈ seen
    · rw [if_pos ha]
      exact ih seen
    · rw [if_neg ha]
      refine List.nodup_cons.mpr ⟨?_, ih _⟩
      intro hmem
      exact ((mem_firstSeenAux a rest (a :: seen)).mp hmem).2
        (List.mem_cons_self a seen)

theorem firstSeenNames_nodup (vl : List VariableDescriptor) :
    (firstSeenNames vl).Nodup :=
  nodup_firstSeenAux _ _

theorem groupWidth_cons (d : VariableDescriptor) (rest : List VariableDescriptor)
    (g : String) :
    groupWidth (d :: rest) g =
      (if d.group_name = g then 1 else 0) + groupWidth rest g := by
  unfold groupWidth
  by_cases h : d.group_name = g
  · simp [List.filter_cons, h, Nat.add_comm]
  · simp [List.filter_cons, h]

theorem groupWidth_filter_ne (rest : List VariableDescriptor) (n g : String)
    (hg : g ≠ n) :
    groupWidth (rest.filter (fun d' => d'.group_name ≠ n)) g = groupWidth rest g := by
  unfold groupWidth
  rw [List.filter_filter]
  congr 1
  refine List.filter_congr (fun d _ => ?_)
  by_cases h : d.group_name = g
  · simp [h, hg]
  · simp [h]

theorem length_filter_split (rest : List VariableDescriptor) (n : String) :
    rest.length = groupWidth rest n +
      (rest.filter (fun d' => d'.group_name ≠ n)).length := by
  induction rest with
  | nil => simp [groupWidth]
  | cons d tail ih =>
    rw [List.length_cons, ih, groupWidth_cons, List.filter_cons]
    by_cases h : d.group_name = n
    · have hd : (decide (d.group_name ≠ n)) = false := by simp [h]
      rw [if_pos h, hd]
      simp only [Bool.false_eq_true, if_false]
      omega
    · have hd : (decide (d.group_name ≠ n)) = true := by simp [h]
      rw [if_neg h, hd]
      simp only [if_true, List.length_cons]
      omega

theorem totalWidth_eq_sum (vl : List VariableDescriptor) :
    totalWidth vl = ((firstSeenNames vl).map (groupWidth vl)).sum := by
  unfold totalWidth sizesList
  rw [List.map_map]
  rfl

theorem count_map_group_name (vl : List VariableDescriptor) (g : String) :
    (vl.map (fun d => d.group_name)).count g = groupWidth vl g := by
  induction vl with
  | nil => rfl
  | cons d rest ih =>
    rw [List.map_cons, List.count_cons, ih, groupWidth_cons]
    by_cases h : d.group_name = g
    · simp [h, Nat.add_comm]
    · simp [h]

theorem firstSeen_perm_dedup (vl : List VariableDescriptor) :
    (firstSeenNames vl).Perm (vl.map (fun d => d.group_name)).dedup := by
  rw [List.perm_ext_iff_of_nodup (firstSeenNames_nodup vl) (List.nodup_dedup _)]
  intro a
  rw [List.mem_dedup, mem_firstSeenNames]
  constructor
  · rintro ⟨d, hd, rfl⟩
    exact List.mem_map.mpr ⟨d, hd, rfl⟩
  · intro h
    obtain ⟨d, hd, rfl⟩ := List.mem_map.mp h
    exact ⟨d, hd, rfl⟩

theorem totalWidth_eq_length (vl : List VariableDescriptor) :
    totalWidth vl = vl.length := by
  rw [totalWidth_eq_sum]
  rw [((firstSeen_perm_dedup vl).map (groupWidth vl)).sum_eq]
  have hcongr : ((vl.map (fun d => d.group_name)).dedup.map (groupWidth vl)) =
      ((vl.map (fun d => d.group_name)).dedup.map
        (fun x => (vl.map (fun d => d.group_name)).count x)) :=
    List.map_congr_left (fun g _ => (count_map_group_name vl g).symm)
  rw [hcongr, List.sum_map_count_dedup_eq_length, List.length_map]

theorem sizesList_keys (vl : List VariableDescriptor) :
    (sizesList vl).map (fun p => p.1) = firstSeenNames vl := by
  unfold sizesList
  rw [List.map_map]
  have h : ((fun p : String × ℕ => p.1) ∘ fun g => (g, groupWidth vl g)) = id := rfl
  rw [h, List.map_id]

/-! ## Lemmas about the slicer -/

theorem tdfvm_ok (data : NDArray) (vl : List VariableDescriptor)
    (h2 : data.ndim = 2) (hc : totalWidth vl = data.ncols) :
    tensordict_from_variables_metadata data vl =
      .ok ⟨buildSlices data.rows (dtypeOf vl) (sizesList vl) 0⟩ := by
  unfold tensordict_from_variables_metadata
  rw [if_neg (by simp [h2]), if_neg (by simp [hc])]

theorem buildSlices_keys (rows : List (List ℚ)) (dt : String → DType) :
    ∀ (sz : List (String × ℕ)) (curr : ℕ),
      (buildSlices rows dt sz curr).map (fun p => p.1) = sz.map (fun p => p.1) := by
  intro sz
  induction sz with
  | nil => intro curr; rfl
  | cons p rest ih =>
    intro curr
    obtain ⟨g, len⟩ := p
    simp [buildSlices, ih]

theorem buildSlices_values_length (rows : List (List ℚ)) (dt : String → DType) :
    ∀ (sz : List (String × ℕ)) (curr : ℕ),
      ∀ p ∈ buildSlices rows dt sz curr, p.2.values.length = rows.length := by
  intro sz
  induction sz with
  | nil => intro curr p hp; cases hp
  | cons q rest ih =>
    intro curr p hp
    obtain ⟨g, len⟩ := q
    rcases List.mem_cons.mp hp with rfl | h
    · simp [castRows, sliceCols]
    · exact ih (curr + len) p h

theorem alistLookup_buildSlices (rows : List (List ℚ)) (dt : String → DType) :
    ∀ (sz : List (String × ℕ)) (curr : ℕ) (g : String),
      alistLookup (buildSlices rows dt sz curr) g = sliceSpec rows dt sz curr g := by
  intro sz
  induction sz with
  | nil => intro curr g; rfl
  | cons p rest ih =>
    intro curr g
    obtain ⟨k, len⟩ := p
    by_cases h : k = g
    · subst h; simp [buildSlices, sliceSpec, alistLookup]
    · simp [buildSlices, sliceSpec, alistLookup, h, ih]

theorem sliceSpec_eq (rows : List (List ℚ)) (dt : String → DType) :
    ∀ (sz : List (String × ℕ)) (curr : ℕ) (g : String),
      sliceSpec rows dt sz curr g =
        (alistLookup sz g).map (fun len =>
          ⟨dt g, castRows (dt g)
            (sliceCols rows
              (curr + ((sz.takeWhile (fun p => p.1 ≠ g)).map (fun p => p.2)).sum)
              len)⟩) := by
  intro sz
  induction sz with
  | nil => intro curr g; rfl
  | cons p rest ih =>
    intro curr g
    obtain ⟨k, len⟩ := p
    by_cases h : k = g
    · subst h
      simp [sliceSpec, alistLookup, List.takeWhile_cons]
    · have hd : (decide ((k, len).1 ≠ g)) = true := by simpa using h
      rw [sliceSpec, if_neg h, ih (curr + len) g]
      simp only [alistLookup, if_neg h, List.takeWhile_cons, hd, if_true,
        List.map_cons, List.sum_cons]
      cases alistLookup rest g with
      | none => rfl
      | some w =>
        simp only [Option.map_some']
        rw [Nat.add_assoc]

theorem alistLookup_graph {β : Type} (T : String → β) (l : List String) (g : String) :
    alistLookup (l.map (fun a => (a, T a))) g = if g ∈ l then some (T g) else none := by
  induction l with
  | nil => simp [alistLookup]
  | cons a rest ih =>
    by_cases h : a = g
    · subst h; simp [alistLookup]
    · have hga : ¬ g = a := fun hc => h hc.symm
      simp [alistLookup, h, hga, ih]

theorem alistLookup_sizesList (vl : List VariableDescriptor) (g : String) :
    alistLookup (sizesList vl) g =
      if g ∈ firstSeenNames vl then some (groupWidth vl g) else none :=
  alistLookup_graph (groupWidth vl) (firstSeenNames vl) g

theorem takeWhile_ne_of_append {α : Type} [DecidableEq α] :
    ∀ (A : List α) (g : α) (B : List α), (A ++ g :: B).Nodup →
      (A ++ g :: B).takeWhile (fun x => x ≠ g) = A := by
  intro A
  induction A with
  | nil => intro g B _; simp [List.takeWhile_cons]
  | cons a A' ih =>
    intro g B hnd
    have hag : a ≠ g := by
      have := (List.nodup_cons.mp hnd).1
      intro hc; subst hc
      exact this (List.mem_append.mpr (Or.inr (List.mem_cons_self _ _)))
    simp only [List.cons_append, List.takeWhile_cons]
    rw [if_pos (by simpa using hag), ih g B (List.nodup_cons.mp hnd).2]

theorem takeWhile_sizesList (vl : List VariableDescriptor) (g : String) :
    ((sizesList vl).takeWhile (fun p => p.1 ≠ g)).map (fun p => p.2) =
      (((firstSeenNames vl).takeWhile (fun g' => g' ≠ g)).map (groupWidth vl)) := by
  unfold sizesList
  rw [List.takeWhile_map, List.map_map]
  rfl

theorem offset_add_width_le (vl : List VariableDescriptor) (g : String)
    (hg : g ∈ firstSeenNames vl) :
    offsetOf vl g + groupWidth vl g ≤ totalWidth vl := by
  obtain ⟨A, B, hsplit⟩ := List.mem_iff_append.mp hg
  have hnd : (firstSeenNames vl).Nodup := firstSeenNames_nodup vl
  have htw : (firstSeenNames vl).takeWhile (fun g' => g' ≠ g) = A := by
    rw [hsplit] at hnd ⊢
    exact takeWhile_ne_of_append A g B hnd
  rw [totalWidth_eq_sum, offsetOf, htw, hsplit]
  rw [List.map_append, List.sum_append, List.map_cons, List.sum_cons]
  omega

theorem castRows_length (dt : DType) (rows : List (List ℚ)) :
    (castRows dt rows).length = rows.length := by
  simp [castRows]

theorem mem_castRows_sliceCols {dt : DType} {start len : ℕ}
    {rows : List (List ℚ)} {W : ℕ}
    (hW : ∀ row ∈ rows, row.length = W) (hle : start + len ≤ W) :
    ∀ r ∈ castRows dt (sliceCols rows start len), r.length = len := by
  intro r hr
  unfold castRows sliceCols at hr
  rw [List.map_map] at hr
  obtain ⟨r0, hr0, rfl⟩ := List.mem_map.mp hr
  simp only [Function.comp_apply, List.length_map, List.length_take,
    List.length_drop]
  rw [hW r0 hr0]
  omega

theorem tdfvm_lookup (data : NDArray) (vl : List VariableDescriptor)
    (h2 : data.ndim = 2) (hc : totalWidth vl = data.ncols)
    (g : String) (hg : g ∈ firstSeenNames vl) :
    ∃ td, tensordict_from_variables_metadata data vl = .ok td ∧
      alistLookup td.entries g =
        some ⟨dtypeOf vl g, castRows (dtypeOf vl g)
          (sliceCols data.rows (offsetOf vl g) (groupWidth vl g))⟩ := by
  refine ⟨_, tdfvm_ok data vl h2 hc, ?_⟩
  rw [alistLookup_buildSlices, sliceSpec_eq, alistLookup_sizesList, if_pos hg]
  rw [Option.map_some']
  congr 2
  rw [takeWhile_sizesList]
  rw [Nat.zero_add]
  rfl

/-! ## Lemmas about dtype resolution -/

theorem dtypeOf_eq_lastDesc (vl : List VariableDescriptor) (g : String)
    (d : VariableDescriptor) (h : lastDesc vl g = some d) :
    dtypeOf vl g = DTYPE_MAP d.type := by
  unfold dtypeOf
  have h2 : lastLookup (vl.map (fun d => (d.group_name, DTYPE_MAP d.type))) g =
      (lastDesc vl g).map (fun d => DTYPE_MAP d.type) := by
    unfold lastDesc
    rw [← lastLookup_map_snd (fun d => DTYPE_MAP d.type)
      (vl.map (fun d => (d.group_name, d))) g]
    congr 1
    rw [List.map_map]
    rfl
  rw [h2, h]
  rfl

theorem lastDesc_isSome (vl : List VariableDescriptor) (g : String)
    (hg : g ∈ firstSeenNames vl) :
    ∃ d, lastDesc vl g = some d ∧ d ∈ vl ∧ d.group_name = g := by
  cases h : lastDesc vl g with
  | none =>
    unfold lastDesc at h
    rw [lastLookup_eq_none] at h
    exfalso
    obtain ⟨d, hd, rfl⟩ := mem_firstSeenNames.mp hg
    refine h ?_
    rw [List.map_map]
    exact List.mem_map.mpr ⟨d, hd, rfl⟩
  | some d =>
    have hmem : (g, d) ∈ vl.map (fun d => (d.group_name, d)) :=
      lastLookup_mem (by unfold lastDesc at h; exact h)
    obtain ⟨d', hd', heq⟩ := List.mem_map.mp hmem
    have h1 : d'.group_name = g := congrArg Prod.fst heq
    have h2 : d' = d := congrArg Prod.snd heq
    subst h2
    exact ⟨d', rfl, hd', h1⟩

/-! ## Lemmas about categorical sizes -/

theorem gcs_aux_error :
    ∀ (vl : List VariableDescriptor) (acc : List (String × ℤ)),
      (∃ d ∈ vl, badBounds d) →
      get_categorical_sizes_aux acc vl =
        .error "Please specify either both limits or neither" := by
  intro vl
  induction vl with
  | nil =>
    intro acc h
    obtain ⟨d, hd, _⟩ := h
    cases hd
  | cons item rest ih =>
    intro acc h
    obtain ⟨d, hd, hbad⟩ := h
    by_cases hcat : item.type = VariableTypeEnum.categorical
    · cases hu : item.upper with
      | some u =>
        cases hl : item.lower with
        | some l =>
          have hmem : d ∈ rest := by
            rcases List.mem_cons.mp hd with rfl | hmem
            · exact absurd (by simp [hu, hl]) hbad.2
            · exact hmem
          simp only [get_categorical_sizes_aux, hcat, if_true, hu, hl]
          exact ih _ ⟨d, hmem, hbad⟩
        | none => simp [get_categorical_sizes_aux, hcat, hu, hl]
      | none =>
        cases hl : item.lower with
        | some l => simp [get_categorical_sizes_aux, hcat, hu, hl]
        | none =>
          have hmem : d ∈ rest := by
            rcases List.mem_cons.mp hd with rfl | hmem
            · exact absurd (by simp [hu, hl]) hbad.2
            · exact hmem
          simp only [get_categorical_sizes_aux, hcat, if_true, hu, hl]
          exact ih _ ⟨d, hmem, hbad⟩
    · have hmem : d ∈ rest := by
        rcases List.mem_cons.mp hd with rfl | hmem
        · exact absurd hbad.1 hcat
        · exact hmem
      simp only [get_categorical_sizes_aux, hcat, if_false]
      exact ih _ ⟨d, hmem, hbad⟩

theorem lastCatDesc_cons_cat (item : VariableDescriptor)
    (rest : List VariableDescriptor) (g : String)
    (hcat : item.type = VariableTypeEnum.categorical) :
    lastCatDesc (item :: rest) g =
      match lastCatDesc rest g with
      | some d => some d
      | none => if item.group_name = g then some item else none := by
  unfold lastCatDesc
  simp only [List.filterMap_cons, hcat, if_true]
  rw [lastLookup]
  generalize lastLookup (List.filterMap
    (fun d => if d.type = VariableTypeEnum.categorical
      then some (d.group_name, d) else none) rest) g = o
  cases o with
  | some v => rfl
  | none => dsimp only

theorem lastCatDesc_cons_noncat (item : VariableDescriptor)
    (rest : List VariableDescriptor) (g : String)
    (hcat : ¬ item.type = VariableTypeEnum.categorical) :
    lastCatDesc (item :: rest) g = lastCatDesc rest g := by
  unfold lastCatDesc
  rw [List.filterMap_cons, if_neg hcat]

theorem gcs_aux_ok :
    ∀ (vl : List VariableDescriptor) (acc : List (String × ℤ)),
      (∀ d ∈ vl, ¬ badBounds d) →
      ∃ m, get_categorical_sizes_aux acc vl = .ok m ∧
        ∀ g, alistLookup m g =
          match lastCatDesc vl g with
          | some d => some (boundsSize d)
          | none => alistLookup acc g := by
  intro vl
  induction vl with
  | nil =>
    intro acc _
    exact ⟨acc, rfl, fun g => by simp [lastCatDesc, lastLookup]⟩
  | cons item rest ih =>
    intro acc hgood
    have hrest : ∀ d ∈ rest, ¬ badBounds d :=
      fun d hd => hgood d (List.mem_cons_of_mem _ hd)
    have hitem := hgood item (List.mem_cons_self _ _)
    by_cases hcat : item.type = VariableTypeEnum.categorical
    · cases hu : item.upper with
      | some u =>
        cases hl : item.lower with
        | some l =>
          obtain ⟨m, hm, hlook⟩ := ih (dictUpdate acc item.group_name (u - l + 1)) hrest
          refine ⟨m, by simp [get_categorical_sizes_aux, hcat, hu, hl, hm], ?_⟩
          intro g
          rw [hlook g, lastCatDesc_cons_cat item rest g hcat]
          cases hd : lastCatDesc rest g with
          | some d => rfl
          | none =>
            dsimp only
            rw [alistLookup_dictUpdate]
            by_cases hnm : item.group_name = g
            · rw [if_pos hnm, if_pos hnm.symm]
              dsimp only
              simp [boundsSize, hu, hl]
            · rw [if_neg hnm, if_neg (fun hc => hnm hc.symm)]
        | none =>
          exfalso
          exact hitem ⟨hcat, by simp [hu, hl]⟩
      | none =>
        cases hl : item.lower with
        | some l =>
          exfalso
          exact hitem ⟨hcat, by simp [hu, hl]⟩
        | none =>
          obtain ⟨m, hm, hlook⟩ := ih (dictUpdate acc item.group_name (-1)) hrest
          refine ⟨m, by simp [get_categorical_sizes_aux, hcat, hu, hl, hm], ?_⟩
          intro g
          rw [hlook g, lastCatDesc_cons_cat item rest g hcat]
          cases hd : lastCatDesc rest g with
          | some d => rfl
          | none =>
            dsimp only
            rw [alistLookup_dictUpdate]
            by_cases hnm : item.group_name = g
            · rw [if_pos hnm, if_pos hnm.symm]
              dsimp only
              simp [boundsSize, hu, hl]
            · rw [if_neg hnm, if_neg (fun hc => hnm hc.symm)]
    · obtain ⟨m, hm, hlook⟩ := ih acc hrest
      refine ⟨m, by simp [get_categorical_sizes_aux, hcat, hm], ?_⟩
      intro g
      rw [hlook g, lastCatDesc_cons_noncat item rest g hcat]

theorem gcs_aux_nodup :
    ∀ (vl : List VariableDescriptor) (acc m : List (String × ℤ)),
      get_categorical_sizes_aux acc vl = .ok m →
      (acc.map (fun p => p.1)).Nodup → (m.map (fun p => p.1)).Nodup := by
  intro vl
  induction vl with
  | nil =>
    intro acc m hm hacc
    rw [get_categorical_sizes_aux] at hm
    injection hm with hm
    rw [← hm]
    exact hacc
  | cons item rest ih =>
    intro acc m hm hacc
    by_cases hcat : item.type = VariableTypeEnum.categorical
    · cases hu : item.upper with
      | some u =>
        cases hl : item.lower with
        | some l =>
          simp only [get_categorical_sizes_aux, hcat, if_true, hu, hl] at hm
          exact ih _ m hm (dictUpdate_keys_nodup hacc _ _)
        | none => simp [get_categorical_sizes_aux, hcat, hu, hl] at hm
      | none =>
        cases hl : item.lower with
        | some l => simp [get_categorical_sizes_aux, hcat, hu, hl] at hm
        | none =>
          simp only [get_categorical_sizes_aux, hcat, if_true, hu, hl] at hm
          exact ih _ m hm (dictUpdate_keys_nodup hacc _ _)
    · simp only [get_categorical_sizes_aux, hcat, if_false] at hm
      exact ih _ m hm hacc

theorem gcs_keys_nodup {vl : List VariableDescriptor} {m : List (String × ℤ)}
    (h : get_categorical_sizes vl = .ok m) : (m.map (fun p => p.1)).Nodup :=
  gcs_aux_nodup vl [] m h (by simp)

/-! ## Lemmas about one-hot conversion -/

theorem anyKey_eq_mem {β : Type} (l : List (String × β)) (x : String) :
    l.any (fun q => q.1 = x) = true ↔ x ∈ l.map (fun p => p.1) := by
  rw [List.any_eq_true]
  constructor
  · rintro ⟨q, hq, hqx⟩
    exact List.mem_map.mpr ⟨q, hq, by simpa using hqx⟩
  · intro hx
    obtain ⟨q, hq, rfl⟩ := List.mem_map.mp hx
    exact ⟨q, hq, by simp⟩

theorem anyKey_congr {β γ : Type} {l : List (String × β)} {l' : List (String × γ)}
    (h : l.map (fun p => p.1) = l'.map (fun p => p.1)) (x : String) :
    l.any (fun q => q.1 = x) = l'.any (fun q => q.1 = x) := by
  have h1 := anyKey_eq_mem l x
  have h2 := anyKey_eq_mem l' x
  rw [h] at h1
  by_cases hx : x ∈ l'.map (fun p => p.1)
  · rw [h1.mpr hx, h2.mpr hx]
  · cases hbl : l.any (fun q => q.1 = x) with
    | true => exact absurd (h1.mp hbl) hx
    | false =>
      cases hbl' : l'.any (fun q => q.1 = x) with
      | true => exact absurd (h2.mp hbl') hx
      | false => rfl

theorem setEntry_eq_map (l : List (String × TDEntry)) (k : String) (v : TDEntry) :
    setEntry l k v = l.map (fun p => (p.1, if p.1 = k then v else p.2)) := by
  unfold setEntry
  refine List.map_congr_left (fun p _ => ?_)
  by_cases h : p.1 = k <;> simp [h]

theorem setEntry_keys (l : List (String × TDEntry)) (k : String) (v : TDEntry) :
    (setEntry l k v).map (fun p => p.1) = l.map (fun p => p.1) := by
  rw [setEntry_eq_map, List.map_map]
  rfl

theorem map_entry_keys {β γ : Type} (T : String → β → γ) (l : List (String × β)) :
    (l.map (fun p => (p.1, T p.1 p.2))).map (fun p => p.1) = l.map (fun p => p.1) := by
  rw [List.map_map]
  rfl

theorem oneHotTransform_nil (g : String) (e : TDEntry) :
    oneHotTransform [] g e = e := rfl

theorem oneHotTransform_cons (k : String) (n : ℤ) (rest : List (String × ℤ))
    (g : String) (e : TDEntry) :
    oneHotTransform ((k, n) :: rest) g e =
      if k = g then (if 0 ≤ n then oneHotEntry e n.toNat else e)
      else oneHotTransform rest g e := by
  unfold oneHotTransform
  by_cases h : k = g
  · simp [alistLookup, h]
  · simp [alistLookup, h]

theorem oneHotTransform_not_mem {sizes : List (String × ℤ)} {g : String}
    (h : g ∉ sizes.map (fun p => p.1)) (e : TDEntry) :
    oneHotTransform sizes g e = e := by
  unfold oneHotTransform
  rw [(alistLookup_eq_none sizes g).mpr h]

theorem convert_one_hot_intersect :
    ∀ (sizes : List (String × ℤ)) (td : TensorDictM),
      (td.entries.map (fun p => p.1)).Nodup →
      (sizes.map (fun p => p.1)).Nodup →
      convert_one_hot td (intersect_dicts_left sizes td.entries) =
        .ok ⟨td.entries.map (fun p => (p.1, oneHotTransform sizes p.1 p.2))⟩ := by
  intro sizes
  induction sizes with
  | nil =>
    intro td hk hs
    have h1 : td.entries.map (fun p => (p.1, oneHotTransform [] p.1 p.2)) =
        td.entries :=
      (List.map_congr_left (fun p _ => rfl)).trans (List.map_id' _)
    show convert_one_hot td [] = _
    rw [convert_one_hot, h1]
  | cons s rest ih =>
    intro td hk hs
    obtain ⟨sk, sn⟩ := s
    rw [List.map_cons] at hs
    have hs0 := List.nodup_cons.mp hs
    have hsk : sk ∉ rest.map (fun p => p.1) := hs0.1
    have hs' : (rest.map (fun p => p.1)).Nodup := hs0.2
    unfold intersect_dicts_left
    rw [List.filter_cons]
    by_cases hmem : sk ∈ td.entries.map (fun p => p.1)
    · rw [if_pos (by simpa using (anyKey_eq_mem td.entries sk).mpr hmem)]
      rw [convert_one_hot]
      dsimp only
      obtain ⟨e, he⟩ := alistLookup_isSome td.entries sk hmem
      rw [he]
      dsimp only
      by_cases hpos : 0 ≤ sn
      · rw [if_pos hpos]
        have hkeys : (setEntry td.entries sk (oneHotEntry e sn.toNat)).map
              (fun p => p.1) = td.entries.map (fun p => p.1) :=
          setEntry_keys td.entries sk (oneHotEntry e sn.toNat)
        have hfil : (rest.filter (fun p => td.entries.any (fun q => q.1 = p.1))) =
            intersect_dicts_left rest
              (setEntry td.entries sk (oneHotEntry e sn.toNat)) := by
          unfold intersect_dicts_left
          refine List.filter_congr (fun p _ => ?_)
          have := anyKey_congr hkeys.symm p.1
          simpa using this
        rw [hfil]
        rw [ih ⟨setEntry td.entries sk (oneHotEntry e sn.toNat)⟩
          (by simpa using hkeys ▸ hk) hs']
        congr 2
        rw [setEntry_eq_map, List.map_map]
        refine List.map_congr_left (fun p hp => ?_)
        simp only [Function.comp_apply]
        by_cases hpk : p.1 = sk
        · have hep : e = p.2 := by
            have hlp := alistLookup_of_mem hk hp
            rw [hpk] at hlp
            rw [hlp] at he
            injection he with hinj
            exact hinj.symm
          have hpmem : p.1 ∉ rest.map (fun q => q.1) := by rw [hpk]; exact hsk
          rw [oneHotTransform_cons, if_pos hpk.symm, if_pos hpos, if_pos hpk,
            oneHotTransform_not_mem hpmem, hep]
        · have hkp : ¬ sk = p.1 := fun hc => hpk hc.symm
          rw [oneHotTransform_cons, if_neg hkp, if_neg hpk]
      · rw [if_neg hpos]
        have hfil : (rest.filter (fun p => td.entries.any (fun q => q.1 = p.1))) =
            intersect_dicts_left rest td.entries := rfl
        rw [hfil, ih td hk hs']
        congr 2
        refine List.map_congr_left (fun p hp => ?_)
        by_cases hpk : p.1 = sk
        · have hpmem : p.1 ∉ rest.map (fun q => q.1) := by rw [hpk]; exact hsk
          rw [oneHotTransform_cons, if_pos hpk.symm, if_neg hpos,
            oneHotTransform_not_mem hpmem]
        · have hkp : ¬ sk = p.1 := fun hc => hpk hc.symm
          rw [oneHotTransform_cons, if_neg hkp]
    · rw [if_neg (by simpa using fun hc => hmem ((anyKey_eq_mem td.entries sk).mp hc))]
      have hfil : (rest.filter (fun p => td.entries.any (fun q => q.1 = p.1))) =
          intersect_dicts_left rest td.entries := rfl
      rw [hfil, ih td hk hs']
      congr 2
      refine List.map_congr_left (fun p hp => ?_)
      have hpk : ¬ p.1 = sk := fun hc =>
        hmem (hc ▸ List.mem_map.mpr ⟨p, hp, rfl⟩)
      have hkp : ¬ sk = p.1 := fun hc => hpk hc.symm
      rw [oneHotTransform_cons, if_neg hkp]

/-! ## Lemmas about the reconstruction helpers -/

theorem checkConstant_ok (td : TensorDictM) :
    ∀ nodes : List String,
      (∀ g ∈ nodes, ∃ e, alistLookup td.entries g = some e ∧ entryConst e = true) →
      checkConstant td nodes = .ok () := by
  intro nodes
  induction nodes with
  | nil => intro _; rfl
  | cons g rest ih =>
    intro h
    obtain ⟨e, he, hc⟩ := h g (List.mem_cons_self _ _)
    rw [checkConstant, he]
    dsimp only
    rw [if_pos hc]
    exact ih (fun g' hg' => h g' (List.mem_cons_of_mem _ hg'))

theorem checkConstant_error (td : TensorDictM) :
    ∀ nodes : List String,
      (∀ g ∈ nodes, ∃ e, alistLookup td.entries g = some e) →
      (∃ g ∈ nodes, ∃ e, alistLookup td.entries g = some e ∧ entryConst e = false) →
      checkConstant td nodes =
        .error "AssertionError: intervention values differ across the batch" := by
  intro nodes
  induction nodes with
  | nil =>
    intro _ hviol
    obtain ⟨g, hg, _⟩ := hviol
    cases hg
  | cons g rest ih =>
    intro hall hviol
    obtain ⟨e, he⟩ := hall g (List.mem_cons_self _ _)
    rw [checkConstant, he]
    dsimp only
    cases hb : entryConst e with
    | false => simp
    | true =>
      rw [if_pos rfl]
      refine ih (fun g' hg' => hall g' (List.mem_cons_of_mem _ hg')) ?_
      obtain ⟨g0, hg0, e0, he0, hc0⟩ := hviol
      rcases List.mem_cons.mp hg0 with rfl | hmem
      · rw [he0] at he
        injection he with he
        rw [← he] at hb
        rw [hb] at hc0
        cases hc0
      · exact ⟨g0, hmem, e0, he0, hc0⟩

theorem selectFirstRows_spec (td : TensorDictM) :
    ∀ nodes : List String,
      (∀ g ∈ nodes, g ∈ td.entries.map (fun p => p.1)) →
      ∃ ivs, selectFirstRows td nodes = .ok ivs ∧
        ivs.entries.map (fun p => p.1) = nodes ∧
        ∀ g e, g ∈ nodes → alistLookup td.entries g = some e →
          alistLookup ivs.entries g = some (firstRowEntry e) := by
  intro nodes
  induction nodes with
  | nil =>
    intro _
    exact ⟨⟨[]⟩, rfl, rfl, fun g e hg _ => absurd hg (List.not_mem_nil g)⟩
  | cons g rest ih =>
    intro h
    obtain ⟨e, he⟩ := alistLookup_isSome td.entries g (h g (List.mem_cons_self _ _))
    obtain ⟨tail, htail, hkeys, hlook⟩ :=
      ih (fun g' hg' => h g' (List.mem_cons_of_mem _ hg'))
    refine ⟨⟨(g, firstRowEntry e) :: tail.entries⟩, ?_, ?_, ?_⟩
    · rw [selectFirstRows, he, htail]
    · simp [hkeys]
    · intro g' e' hg' he'
      by_cases hgg : g = g'
      · subst hgg
        have hee : e = e' := by
          rw [he] at he'
          injection he'
        subst hee
        simp [alistLookup]
      · rcases List.mem_cons.mp hg' with h1 | hmem
        · exact absurd h1.symm hgg
        · rw [alistLookup, if_neg hgg]
          exact hlook g' e' hmem he'

theorem resolveNodes_length (cols : List ℤ) (vl : List VariableDescriptor) :
    ∀ (idxs : List ℤ) (ns : List String),
      resolveNodes cols vl idxs = .ok ns → ns.length = idxs.length := by
  intro idxs
  induction idxs with
  | nil =>
    intro ns h
    rw [resolveNodes] at h
    injection h with h
    subst h
    rfl
  | cons idx rest ih =>
    intro ns h
    rw [resolveNodes] at h
    cases hl : colMapLookup cols vl idx with
    | none => rw [hl] at h; cases h
    | some g =>
      rw [hl] at h
      dsimp only at h
      cases hr : resolveNodes cols vl rest with
      | error msg => rw [hr] at h; cases h
      | ok tail =>
        rw [hr] at h
        injection h with h
        rw [← h, List.length_cons, List.length_cons, ih tail hr]

theorem resolveNodes_error_of_missing (cols : List ℤ) (vl : List VariableDescriptor) :
    ∀ idxs : List ℤ,
      (∃ idx ∈ idxs, colMapLookup cols vl idx = none) →
      resolveNodes cols vl idxs = .error "KeyError" := by
  intro idxs
  induction idxs with
  | nil =>
    intro h
    obtain ⟨idx, hidx, _⟩ := h
    cases hidx
  | cons idx rest ih =>
    intro h
    rw [resolveNodes]
    cases hl : colMapLookup cols vl idx with
    | none => rfl
    | some g =>
      dsimp only
      obtain ⟨idx0, hidx0, hl0⟩ := h
      have hmem : idx0 ∈ rest := by
        rcases List.mem_cons.mp hidx0 with rfl | hmem
        · rw [hl] at hl0; cases hl0
        · exact hmem
      rw [ih ⟨idx0, hmem, hl0⟩]

theorem resolveNodes_nil (cols : List ℤ) (vl : List VariableDescriptor) :
    resolveNodes cols vl [] = .ok [] := rfl

theorem alistLookup_mem {β : Type} {l : List (String × β)} {g : String} {v : β}
    (h : alistLookup l g = some v) : (g, v) ∈ l := by
  induction l with
  | nil => cases h
  | cons p rest ih =>
    obtain ⟨a, b⟩ := p
    rw [alistLookup] at h
    by_cases hag : a = g
    · rw [if_pos hag] at h
      injection h with h
      subst hag; subst h
      exact List.mem_cons_self _ _
    · rw [if_neg hag] at h
      exact List.mem_cons_of_mem _ (ih h)

theorem firstRowEntry_oneHotTransform (cs : List (String × ℤ)) (g : String)
    (e : TDEntry) (hne : e.values ≠ []) :
    firstRowEntry (oneHotTransform cs g e) = oneHotTransform cs g (firstRowEntry e) := by
  unfold oneHotTransform
  cases alistLookup cs g with
  | none => rfl
  | some n =>
    dsimp only
    by_cases h : 0 ≤ n
    · rw [if_pos h, if_pos h]
      unfold firstRowEntry oneHotEntry
      dsimp only
      congr 1
      cases hv : e.values with
      | nil => exact absurd hv hne
      | cons v vs => simp [hv]
    · rw [if_neg h, if_neg h]

theorem ndim_eq_two_of_wf2d {data : NDArray} (hwf : data.wf2d) : data.ndim = 2 := by
  rw [NDArray.ndim, hwf.1]
  rfl

theorem nrows_of_wf2d {data : NDArray} (hwf : data.wf2d) :
    data.nrows = data.rows.length := by
  rw [NDArray.nrows, hwf.1]
  rfl

theorem tdfvm_keys (data : NDArray) (vl : List VariableDescriptor)
    {td : TensorDictM}
    (htd : tensordict_from_variables_metadata data vl = .ok td)
    (h2 : data.ndim = 2) (hc : totalWidth vl = data.ncols) :
    td.entries = buildSlices data.rows (dtypeOf vl) (sizesList vl) 0 ∧
    td.entries.map (fun p => p.1) = firstSeenNames vl := by
  have h := tdfvm_ok data vl h2 hc
  rw [htd] at h
  injection h with h
  constructor
  · rw [h]
  · rw [h]
    exact (buildSlices_keys data.rows (dtypeOf vl) (sizesList vl) 0).trans
      (sizesList_keys vl)

theorem to_intervention_error_of_violation
    (data : NDArray) (nodes cond : List String) (vl : List VariableDescriptor)
    (hwf : data.wf2d) (hc : totalWidth vl = data.ncols) (hr : data.rows ≠ [])
    (hn : ∀ g ∈ nodes, g ∈ firstSeenNames vl)
    {td : TensorDictM}
    (htd : tensordict_from_variables_metadata data vl = .ok td)
    (hviol : ∃ g ∈ nodes, ∃ e, alistLookup td.entries g = some e ∧ entryConst e = false) :
    to_intervention data nodes cond vl =
      .error "AssertionError: intervention values differ across the batch" := by
  have hkeys := (tdfvm_keys data vl htd (ndim_eq_two_of_wf2d hwf) hc).2
  have hnr : ¬ data.nrows = 0 := by
    rw [nrows_of_wf2d hwf]
    simpa using hr
  have hall : ∀ g ∈ nodes, ∃ e, alistLookup td.entries g = some e :=
    fun g hg => alistLookup_isSome td.entries g (hkeys ▸ hn g hg)
  unfold to_intervention
  rw [htd]
  dsimp only
  rw [if_neg hnr, checkConstant_error td nodes hall hviol]

theorem to_counterfactual_error_of_violation
    (data base : NDArray) (nodes : List String) (vl : List VariableDescriptor)
    (hwf : data.wf2d) (hc : totalWidth vl = data.ncols) (hr : data.rows ≠ [])
    (hn : ∀ g ∈ nodes, g ∈ firstSeenNames vl)
    {td : TensorDictM}
    (htd : tensordict_from_variables_metadata data vl = .ok td)
    (hviol : ∃ g ∈ nodes, ∃ e, alistLookup td.entries g = some e ∧ entryConst e = false) :
    to_counterfactual data base nodes vl =
      .error "AssertionError: intervention values differ across the batch" := by
  have hkeys := (tdfvm_keys data vl htd (ndim_eq_two_of_wf2d hwf) hc).2
  have hnr : ¬ data.nrows = 0 := by
    rw [nrows_of_wf2d hwf]
    simpa using hr
  have hall : ∀ g ∈ nodes, ∃ e, alistLookup td.entries g = some e :=
    fun g hg => alistLookup_isSome td.entries g (hkeys ▸ hn g hg)
  unfold to_counterfactual
  rw [htd]
  dsimp only
  rw [if_neg hnr, checkConstant_error td nodes hall hviol]

theorem to_intervention_ok_spec
    (data : NDArray) (nodes cond : List String) (vl : List VariableDescriptor)
    (hwf : data.wf2d) (hc : totalWidth vl = data.ncols) (hr : data.rows ≠ [])
    (hn : ∀ g ∈ nodes, g ∈ firstSeenNames vl)
    (hcondm : ∀ g ∈ cond, g ∈ firstSeenNames vl)
    (hnd : nodes.Nodup) (hcnd : cond.Nodup)
    {cs : List (String × ℤ)} (hcs : get_categorical_sizes vl = .ok cs)
    {td : TensorDictM}
    (htd : tensordict_from_variables_metadata data vl = .ok td)
    (hconst : ∀ g ∈ nodes, ∀ e, alistLookup td.entries g = some e →
      entryConst e = true) :
    ∃ r, to_intervention data nodes cond vl = .ok r ∧
      ∀ g ∈ nodes, ∃ e, alistLookup r.intervention_data.entries g = some e ∧
        alistLookup r.intervention_values.entries g = some (firstRowEntry e) := by
  obtain ⟨hbuild, hkeys⟩ := tdfvm_keys data vl htd (ndim_eq_two_of_wf2d hwf) hc
  have hnr : ¬ data.nrows = 0 := by
    rw [nrows_of_wf2d hwf]
    simpa using hr
  have hall : ∀ g ∈ nodes, ∃ e, alistLookup td.entries g = some e ∧
      entryConst e = true := by
    intro g hg
    obtain ⟨e, he⟩ := alistLookup_isSome td.entries g (hkeys ▸ hn g hg)
    exact ⟨e, he, hconst g hg e he⟩
  have hcc := checkConstant_ok td nodes hall
  obtain ⟨ivs, hivs, hivskeys, hivslook⟩ := selectFirstRows_spec td nodes
    (fun g hg => hkeys ▸ hn g hg)
  obtain ⟨cvs, hcvs, hcvskeys, _⟩ := selectFirstRows_spec td cond
    (fun g hg => hkeys ▸ hcondm g hg)
  have hcsnd := gcs_keys_nodup hcs
  have htdnd : (td.entries.map (fun p => p.1)).Nodup := by
    rw [hkeys]; exact firstSeenNames_nodup vl
  have hivsnd : (ivs.entries.map (fun p => p.1)).Nodup := by
    rw [hivskeys]; exact hnd
  have hcvsnd : (cvs.entries.map (fun p => p.1)).Nodup := by
    rw [hcvskeys]; exact hcnd
  have hconv1 := convert_one_hot_intersect cs ivs hivsnd hcsnd
  have hconv2 := convert_one_hot_intersect cs td htdnd hcsnd
  have hconv3 := convert_one_hot_intersect cs cvs hcvsnd hcsnd
  refine ⟨⟨⟨ivs.entries.map (fun p => (p.1, oneHotTransform cs p.1 p.2))⟩,
      ⟨td.entries.map (fun p => (p.1, oneHotTransform cs p.1 p.2))⟩,
      ⟨cvs.entries.map (fun p => (p.1, oneHotTransform cs p.1 p.2))⟩⟩, ?_, ?_⟩
  · unfold to_intervention
    rw [htd]
    dsimp only
    rw [if_neg hnr, hcc]
    dsimp only
    rw [hivs]
    dsimp only
    rw [hcvs]
    dsimp only
    rw [hcs]
    dsimp only
    rw [hconv1]
    dsimp only
    rw [hconv2]
    dsimp only
    rw [hconv3]
  · intro g hg
    obtain ⟨e, he, _⟩ := hall g hg
    have hvlen : e.values.length = data.rows.length := by
      have hmem := alistLookup_mem he
      rw [hbuild] at hmem
      exact buildSlices_values_length data.rows (dtypeOf vl) (sizesList vl) 0
        (g, e) hmem
    have hvne : e.values ≠ [] := by
      intro hnil
      rw [hnil] at hvlen
      exact hr (List.length_eq_zero.mp hvlen.symm)
    refine ⟨oneHotTransform cs g e, ?_, ?_⟩
    · dsimp only
      rw [alistLookup_map_entry (oneHotTransform cs) td.entries g, he]
      rfl
    · dsimp only
      rw [alistLookup_map_entry (oneHotTransform cs) ivs.entries g,
        hivslook g e hg he]
      rw [Option.map_some', firstRowEntry_oneHotTransform cs g e hvne]

theorem to_counterfactual_ok_spec
    (data base : NDArray) (nodes : List String) (vl : List VariableDescriptor)
    (hwf : data.wf2d) (hc : totalWidth vl = data.ncols) (hr : data.rows ≠ [])
    (hbwf : base.wf2d) (hbc : totalWidth vl = base.ncols)
    (hn : ∀ g ∈ nodes, g ∈ firstSeenNames vl)
    (hnd : nodes.Nodup)
    {cs : List (String × ℤ)} (hcs : get_categorical_sizes vl = .ok cs)
    {td : TensorDictM}
    (htd : tensordict_from_variables_metadata data vl = .ok td)
    (hconst : ∀ g ∈ nodes, ∀ e, alistLookup td.entries g = some e →
      entryConst e = true) :
    ∃ r, to_counterfactual data base nodes vl = .ok r ∧
      ∀ g ∈ nodes, ∃ e, alistLookup r.counterfactual_data.entries g = some e ∧
        alistLookup r.intervention_values.entries g = some (firstRowEntry e) := by
  obtain ⟨hbuild, hkeys⟩ := tdfvm_keys data vl htd (ndim_eq_two_of_wf2d hwf) hc
  have hnr : ¬ data.nrows = 0 := by
    rw [nrows_of_wf2d hwf]
    simpa using hr
  have hall : ∀ g ∈ nodes, ∃ e, alistLookup td.entries g = some e ∧
      entryConst e = true := by
    intro g hg
    obtain ⟨e, he⟩ := alistLookup_isSome td.entries g (hkeys ▸ hn g hg)
    exact ⟨e, he, hconst g hg e he⟩
  have hcc := checkConstant_ok td nodes hall
  obtain ⟨ivs, hivs, hivskeys, hivslook⟩ := selectFirstRows_spec td nodes
    (fun g hg => hkeys ▸ hn g hg)
  have hbase := tdfvm_ok base vl (ndim_eq_two_of_wf2d hbwf) hbc
  have hcsnd := gcs_keys_nodup hcs
  have htdnd : (td.entries.map (fun p => p.1)).Nodup := by
    rw [hkeys]; exact firstSeenNames_nodup vl
  have hivsnd : (ivs.entries.map (fun p => p.1)).Nodup := by
    rw [hivskeys]; exact hnd
  have hfdnd : ((buildSlices base.rows (dtypeOf vl) (sizesList vl) 0).map
      (fun p => p.1)).Nodup := by
    rw [buildSlices_keys, sizesList_keys]
    exact firstSeenNames_nodup vl
  have hconv1 := convert_one_hot_intersect cs ivs hivsnd hcsnd
  have hconv2 := convert_one_hot_intersect cs td htdnd hcsnd
  have hconv3 := convert_one_hot_intersect cs
    ⟨buildSlices base.rows (dtypeOf vl) (sizesList vl) 0⟩ hfdnd hcsnd
  refine ⟨⟨⟨ivs.entries.map (fun p => (p.1, oneHotTransform cs p.1 p.2))⟩,
      ⟨td.entries.map (fun p => (p.1, oneHotTransform cs p.1 p.2))⟩,
      ⟨(buildSlices base.rows (dtypeOf vl) (sizesList vl) 0).map
        (fun p => (p.1, oneHotTransform cs p.1 p.2))⟩⟩, ?_, ?_⟩
  · unfold to_counterfactual
    rw [htd]
    dsimp only
    rw [if_neg hnr, hcc]
    dsimp only
    rw [hivs]
    dsimp only
    rw [hbase]
    dsimp only
    rw [hcs]
    dsimp only
    rw [hconv1]
    dsimp only
    rw [hconv2]
    dsimp only
    rw [hconv3]
  · intro g hg
    obtain ⟨e, he, _⟩ := hall g hg
    have hvlen : e.values.length = data.rows.length := by
      have hmem := alistLookup_mem he
      rw [hbuild] at hmem
      exact buildSlices_values_length data.rows (dtypeOf vl) (sizesList vl) 0
        (g, e) hmem
    have hvne : e.values ≠ [] := by
      intro hnil
      rw [hnil] at hvlen
      exact hr (List.length_eq_zero.mp hvlen.symm)
    refine ⟨oneHotTransform cs g e, ?_, ?_⟩
    · dsimp only
      rw [alistLookup_map_entry (oneHotTransform cs) td.entries g, he]
      rfl
    · dsimp only
      rw [alistLookup_map_entry (oneHotTransform cs) ivs.entries g,
        hivslook g e hg he]
      rw [Option.map_some', firstRowEntry_oneHotTransform cs g e hvne]

theorem buildSlices_lookup_spec (data : NDArray) (vl : List VariableDescriptor)
    (g : String) (hg : g ∈ firstSeenNames vl) :
    alistLookup (buildSlices data.rows (dtypeOf vl) (sizesList vl) 0) g =
      some ⟨dtypeOf vl g, castRows (dtypeOf vl g)
        (sliceCols data.rows (offsetOf vl g) (groupWidth vl g))⟩ := by
  rw [alistLookup_buildSlices, sliceSpec_eq, alistLookup_sizesList, if_pos hg]
  rw [Option.map_some']
  congr 2
  rw [takeWhile_sizesList]
  rw [Nat.zero_add]
  rfl

theorem zipWith_append_map (rows : List (List ℚ)) (f h : List ℚ → List ℚ) :
    List.zipWith (fun a b => a ++ b) (rows.map f) (rows.map h) =
      rows.map (fun r => f r ++ h r) := by
  induction rows with
  | nil => rfl
  | cons r rest ih => simp [ih]

theorem rowConcat_buildSlices (rows : List (List ℚ)) (dt : String → DType) :
    ∀ (sz : List (String × ℕ)) (curr : ℕ), sz ≠ [] →
      (∀ p ∈ sz, dt p.1 = DType.float32) →
      (∀ r ∈ rows, r.length = curr + ((sz.map (fun p => p.2)).sum)) →
      rowConcat ((buildSlices rows dt sz curr).map (fun p => p.2.values)) =
        rows.map (fun r => r.drop curr) := by
  intro sz
  induction sz with
  | nil => intro curr h; exact absurd rfl h
  | cons q rest ih =>
    intro curr _ hdt hlen
    obtain ⟨g, len⟩ := q
    have hg : dt g = DType.float32 := hdt (g, len) (List.mem_cons_self _ _)
    cases hrest : rest with
    | nil =>
      subst hrest
      show castRows (dt g) (sliceCols rows curr len) = rows.map (fun r => r.drop curr)
      rw [hg]
      unfold castRows sliceCols
      rw [List.map_map]
      refine List.map_congr_left (fun r hr => ?_)
      have hlr := hlen r hr
      simp only [List.map_cons, List.map_nil, List.sum_cons, List.sum_nil] at hlr
      simp only [Function.comp_apply]
      have htake : ((r.drop curr).take len) = r.drop curr := by
        apply List.take_of_length_le
        rw [List.length_drop]
        omega
      rw [htake]
      refine (List.map_congr_left (fun q _ => rfl)).trans (List.map_id' _)
    | cons q2 rest2 =>
      subst hrest
      obtain ⟨g2, len2⟩ := q2
      have hstep : rowConcat ((buildSlices rows dt
            ((g, len) :: (g2, len2) :: rest2) curr).map (fun p => p.2.values)) =
          List.zipWith (fun a b => a ++ b) (castRows (dt g) (sliceCols rows curr len))
            (rowConcat ((buildSlices rows dt ((g2, len2) :: rest2)
              (curr + len)).map (fun p => p.2.values))) := rfl
      rw [hstep]
      rw [ih (curr + len) (by simp) (fun p hp => hdt p (List.mem_cons_of_mem _ hp))
        (by
          intro r hr
          have := hlen r hr
          simp only [List.map_cons, List.sum_cons] at this ⊢
          omega)]
      rw [hg]
      unfold castRows sliceCols
      rw [List.map_map]
      rw [zipWith_append_map]
      refine List.map_congr_left (fun r hr => ?_)
      simp only [Function.comp_apply]
      have hid : ((r.drop curr).take len).map (castValue DType.float32) =
          (r.drop curr).take len :=
        (List.map_congr_left (fun q _ => rfl)).trans (List.map_id' _)
      rw [hid]
      have hdd : (r.drop curr).drop len = r.drop (curr + len) := List.drop_drop len curr r
      rw [← hdd, List.take_append_drop]

/-! ## Claim theorems -/

/-- C8: slicing a data array against a catalog fails with a shape error for
every input that is not exactly 2-dimensional, fails for every 2D input whose
column count differs from the sum of the catalog's declared group widths, and
always succeeds when both preconditions hold. -/
theorem c8_slice_shape_guard (data : NDArray) (vl : List VariableDescriptor) :
    (data.ndim ≠ 2 →
      tensordict_from_variables_metadata data vl =
        .error "Numpy loading only supported for 2d data") ∧
    (data.ndim = 2 → totalWidth vl ≠ data.ncols →
      tensordict_from_variables_metadata data vl =
        .error "Variable sizes do not match data shape") ∧
    (data.ndim = 2 → totalWidth vl = data.ncols →
      ∃ td, tensordict_from_variables_metadata data vl = .ok td) := by
  refine ⟨?_, ?_, ?_⟩
  · intro h
    unfold tensordict_from_variables_metadata
    rw [if_pos h]
  · intro h2 hw
    unfold tensordict_from_variables_metadata
    rw [if_neg (by simp [h2]), if_pos hw]
  · intro h2 hw
    exact ⟨_, tdfvm_ok data vl h2 hw⟩

/-- Witness for C8: a 3D array is rejected, a width mismatch is rejected, and
the spec's concrete scenario decodes. -/
theorem c8_witness :
    (tensordict_from_variables_metadata ⟨[2, 2, 2], []⟩ exVl =
      .error "Numpy loading only supported for 2d data") ∧
    (tensordict_from_variables_metadata ⟨[2, 3], exData.rows⟩ exVl =
      .error "Variable sizes do not match data shape") ∧
    ∃ td, tensordict_from_variables_metadata exData exVl = .ok td :=
  ⟨(c8_slice_shape_guard ⟨[2, 2, 2], []⟩ exVl).1 (by decide),
   (c8_slice_shape_guard ⟨[2, 3], exData.rows⟩ exVl).2.1 (by decide) (by decide),
   (c8_slice_shape_guard exData exVl).2.2 (by decide) (by decide)⟩

/-- C6: resolving categorical sizes yields `upper - lower + 1` when both
bounds are declared and `-1` when neither is, fails when exactly one bound is
declared, and gives non-categorical groups no entry (the value recorded for a
group comes from its last categorical descriptor). -/
theorem c6_categorical_sizes (vl : List VariableDescriptor) :
    ((∃ d ∈ vl, badBounds d) →
      get_categorical_sizes vl =
        .error "Please specify either both limits or neither") ∧
    ((∀ d ∈ vl, ¬ badBounds d) →
      ∃ m, get_categorical_sizes vl = .ok m ∧
        ∀ g, alistLookup m g = (lastCatDesc vl g).map boundsSize) := by
  constructor
  · intro h
    exact gcs_aux_error vl [] h
  · intro h
    obtain ⟨m, hm, hlook⟩ := gcs_aux_ok vl [] h
    refine ⟨m, hm, fun g => ?_⟩
    rw [hlook g]
    cases lastCatDesc vl g with
    | some d => rfl
    | none => rfl

/-- Witness for C6: a lone bound is rejected; on the spec's concrete catalog
the categorical `y` gets size 2 and the continuous `x` gets no entry. -/
theorem c6_witness :
    (get_categorical_sizes [⟨"y", VariableTypeEnum.categorical, some 0, none⟩] =
      .error "Please specify either both limits or neither") ∧
    ∃ m, get_categorical_sizes exVl = .ok m ∧
      alistLookup m "y" = (lastCatDesc exVl "y").map boundsSize ∧
      alistLookup m "x" = (lastCatDesc exVl "x").map boundsSize := by
  refine ⟨(c6_categorical_sizes _).1
    ⟨⟨"y", VariableTypeEnum.categorical, some 0, none⟩,
      List.mem_singleton.mpr rfl, by decide⟩, ?_⟩
  obtain ⟨m, hm, hl⟩ := (c6_categorical_sizes exVl).2 (by decide)
  exact ⟨m, hm, hl "y", hl "x"⟩

/-- C9: applying the one-hot encoder through the source's left-intersection of
the sizes with the record's keys never fails, keeps the record's keys, leaves
every group that is absent from the sizes (or carries the `-1` sentinel)
unchanged, and replaces every group with a declared non-negative size by its
one-hot expansion. -/
theorem c9_expand_intersection (td : TensorDictM) (sizes : List (String × ℤ))
    (hk : (td.entries.map (fun p => p.1)).Nodup)
    (hs : (sizes.map (fun p => p.1)).Nodup) :
    ∃ out, convert_one_hot td (intersect_dicts_left sizes td.entries) = .ok out ∧
      out.entries.map (fun p => p.1) = td.entries.map (fun p => p.1) ∧
      ∀ g e, alistLookup td.entries g = some e →
        (alistLookup sizes g = none → alistLookup out.entries g = some e) ∧
        (∀ n : ℤ, alistLookup sizes g = some n → n < 0 →
          alistLookup out.entries g = some e) ∧
        (∀ n : ℤ, alistLookup sizes g = some n → 0 ≤ n →
          alistLookup out.entries g = some (oneHotEntry e n.toNat)) := by
  refine ⟨⟨td.entries.map (fun p => (p.1, oneHotTransform sizes p.1 p.2))⟩,
    convert_one_hot_intersect sizes td hk hs, map_entry_keys _ _, ?_⟩
  intro g e he
  have hlk : alistLookup
      (td.entries.map (fun p => (p.1, oneHotTransform sizes p.1 p.2))) g =
      some (oneHotTransform sizes g e) := by
    rw [alistLookup_map_entry, he]
    rfl
  refine ⟨?_, ?_, ?_⟩
  · intro hn
    dsimp only
    rw [hlk]
    unfold oneHotTransform
    rw [hn]
  · intro n hn hneg
    dsimp only
    rw [hlk]
    unfold oneHotTransform
    rw [hn]
    dsimp only
    rw [if_neg (by omega)]
  · intro n hn hpos
    dsimp only
    rw [hlk]
    unfold oneHotTransform
    rw [hn]
    dsimp only
    rw [if_pos hpos]

/-- Witness for C9: with sizes declaring `x ↦ -1`, `y ↦ 2` and an absent
group `z ↦ 5`, the record's `x` passes through unchanged and `y` is one-hot
expanded; the call does not fail although `z` is missing from the record. -/
theorem c9_witness :
    ∃ out, convert_one_hot exTd
        (intersect_dicts_left [("x", (-1 : ℤ)), ("y", 2), ("z", 5)]
          exTd.entries) = .ok out ∧
      alistLookup out.entries "x" = some ⟨DType.float32, [[1], [1]]⟩ ∧
      alistLookup out.entries "y" =
        some (oneHotEntry ⟨DType.longD, [[0], [1]]⟩ 2) := by
  obtain ⟨out, hout, _, hprop⟩ := c9_expand_intersection exTd
    [("x", -1), ("y", 2), ("z", 5)] (by decide) (by decide)
  refine ⟨out, hout, ?_, ?_⟩
  · exact (hprop "x" ⟨DType.float32, [[1], [1]]⟩ rfl).2.1 (-1) rfl (by decide)
  · exact (hprop "y" ⟨DType.longD, [[0], [1]]⟩ rfl).2.2 2 rfl (by decide)

/-- C3 (amended): each decoded group's width equals the number of descriptors
sharing its group name, and its dtype is mapped from the `type` of the LAST
descriptor carrying that group name — python dict-comprehension overwrite
semantics — not the first. -/
theorem c3_amended_catalog_width_dtype (data : NDArray)
    (vl : List VariableDescriptor) (g : String)
    (hwf : data.wf2d) (hc : totalWidth vl = data.ncols)
    (hg : g ∈ firstSeenNames vl) :
    ∃ td e d, tensordict_from_variables_metadata data vl = .ok td ∧
      alistLookup td.entries g = some e ∧
      lastDesc vl g = some d ∧ d ∈ vl ∧ d.group_name = g ∧
      e.dtype = DTYPE_MAP d.type ∧
      e.values.length = data.rows.length ∧
      ∀ r ∈ e.values, r.length = groupWidth vl g := by
  have h2 := ndim_eq_two_of_wf2d hwf
  obtain ⟨d, hld, hdm, hdn⟩ := lastDesc_isSome vl g hg
  refine ⟨⟨buildSlices data.rows (dtypeOf vl) (sizesList vl) 0⟩,
    ⟨dtypeOf vl g, castRows (dtypeOf vl g)
      (sliceCols data.rows (offsetOf vl g) (groupWidth vl g))⟩, d,
    tdfvm_ok data vl h2 hc, buildSlices_lookup_spec data vl g hg,
    hld, hdm, hdn, dtypeOf_eq_lastDesc vl g d hld, ?_, ?_⟩
  · simp [castRows, sliceCols]
  · refine mem_castRows_sliceCols (W := data.ncols) (fun row hrow => hwf.2 row hrow) ?_
    rw [← hc]
    exact offset_add_width_le vl g hg

/-- Counterexample to C3 as stated: in a group whose first descriptor is
continuous and whose second is categorical, the decoded slice carries the
dtype mapped from the categorical (later) descriptor, not from the first. -/
theorem c3_counterexample :
    exVlDup.map (fun d => d.type) =
      [VariableTypeEnum.continuous, VariableTypeEnum.categorical] ∧
    (tensordict_from_variables_metadata exDataDup exVlDup).map
      (fun td => td.entries.map (fun p => (p.1, p.2.dtype))) =
      .ok [("g", DType.longD)] ∧
    DType.longD ≠ DTYPE_MAP VariableTypeEnum.continuous :=
  ⟨rfl, rfl, by decide⟩

/-- Witness for C3 (amended) on the two-descriptor group. -/
theorem c3_witness :
    ∃ td e d, tensordict_from_variables_metadata exDataDup exVlDup = .ok td ∧
      alistLookup td.entries "g" = some e ∧
      lastDesc exVlDup "g" = some d ∧
      e.dtype = DTYPE_MAP d.type := by
  obtain ⟨td, e, d, h1, h2, h3, _, _, h6, _, _⟩ :=
    c3_amended_catalog_width_dtype exDataDup exVlDup "g" (by decide) (by decide)
      (by decide)
  exact ⟨td, e, d, h1, h2, h3, h6⟩

/-- C5: slicing a matrix whose column count matches the catalog produces one
field per catalog group in first-seen order; each field has shape
`(rows, width)` and holds the contiguous column range starting where the
preceding groups end. -/
theorem c5_slice_partition (data : NDArray) (vl : List VariableDescriptor)
    (hwf : data.wf2d) (hc : totalWidth vl = data.ncols) :
    ∃ td, tensordict_from_variables_metadata data vl = .ok td ∧
      td.entries.map (fun p => p.1) = firstSeenNames vl ∧
      (∀ g ∈ firstSeenNames vl,
        alistLookup td.entries g =
          some ⟨dtypeOf vl g, castRows (dtypeOf vl g)
            (sliceCols data.rows (offsetOf vl g) (groupWidth vl g))⟩) ∧
      ∀ p ∈ td.entries, p.2.values.length = data.rows.length ∧
        ∀ r ∈ p.2.values, r.length = groupWidth vl p.1 := by
  have h2 := ndim_eq_two_of_wf2d hwf
  refine ⟨⟨buildSlices data.rows (dtypeOf vl) (sizesList vl) 0⟩,
    tdfvm_ok data vl h2 hc, ?_, ?_, ?_⟩
  · exact (buildSlices_keys data.rows (dtypeOf vl) (sizesList vl) 0).trans
      (sizesList_keys vl)
  · intro g hg
    exact buildSlices_lookup_spec data vl g hg
  · intro p hp
    refine ⟨buildSlices_values_length data.rows (dtypeOf vl) (sizesList vl) 0 p hp,
      ?_⟩
    have hkeys : p.1 ∈ firstSeenNames vl := by
      rw [← (buildSlices_keys data.rows (dtypeOf vl) (sizesList vl) 0).trans
        (sizesList_keys vl)]
      exact List.mem_map.mpr ⟨p, hp, rfl⟩
    have hnd : ((buildSlices data.rows (dtypeOf vl) (sizesList vl) 0).map
        (fun p => p.1)).Nodup := by
      rw [(buildSlices_keys data.rows (dtypeOf vl) (sizesList vl) 0).trans
        (sizesList_keys vl)]
      exact firstSeenNames_nodup vl
    have hlp := alistLookup_of_mem hnd hp
    rw [buildSlices_lookup_spec data vl p.1 hkeys] at hlp
    injection hlp with hlp
    intro r hr
    rw [← hlp] at hr
    refine mem_castRows_sliceCols (W := data.ncols)
      (fun row hrow => hwf.2 row hrow) ?_ r hr
    rw [← hc]
    exact offset_add_width_le vl p.1 hkeys

/-- Witness for C5 on the spec's concrete scenario. -/
theorem c5_witness :
    ∃ td, tensordict_from_variables_metadata exData exVl = .ok td ∧
      td.entries.map (fun p => p.1) = ["x", "y"] ∧
      alistLookup td.entries "y" =
        some ⟨dtypeOf exVl "y", castRows (dtypeOf exVl "y")
          (sliceCols exData.rows (offsetOf exVl "y") (groupWidth exVl "y"))⟩ := by
  obtain ⟨td, h1, h2, h3, _⟩ := c5_slice_partition exData exVl (by decide) (by decide)
  exact ⟨td, h1, h2, h3 "y" (by decide)⟩

/-- C10: for a catalog of continuous groups and a matrix whose column count
equals the descriptor count, concatenating the sliced record's fields in
iteration order reconstructs exactly the original matrix. -/
theorem c10_round_trip (data : NDArray) (vl : List VariableDescriptor)
    (hwf : data.wf2d)
    (hcont : ∀ d ∈ vl, d.type = VariableTypeEnum.continuous)
    (hc : data.ncols = vl.length) (hne : vl ≠ []) :
    ∃ td, tensordict_from_variables_metadata data vl = .ok td ∧
      tensordict_to_tensor td = .ok data.rows := by
  have hcw : totalWidth vl = data.ncols := by rw [totalWidth_eq_length, hc]
  refine ⟨_, tdfvm_ok data vl (ndim_eq_two_of_wf2d hwf) hcw, ?_⟩
  have hnames : firstSeenNames vl ≠ [] := by
    cases hvl : vl with
    | nil => exact absurd hvl hne
    | cons d rest =>
      intro hfs
      have hmem : d.group_name ∈ firstSeenNames (d :: rest) :=
        mem_firstSeenNames.mpr ⟨d, List.mem_cons_self _ _, rfl⟩
      rw [hfs] at hmem
      cases hmem
  have hsz : sizesList vl ≠ [] := by
    intro h
    exact hnames (List.map_eq_nil_iff.mp h)
  have hdt : ∀ p ∈ sizesList vl, dtypeOf vl p.1 = DType.float32 := by
    intro p hp
    have hg : p.1 ∈ firstSeenNames vl := by
      rw [← sizesList_keys]
      exact List.mem_map.mpr ⟨p, hp, rfl⟩
    obtain ⟨d, hld, hdm, _⟩ := lastDesc_isSome vl p.1 hg
    rw [dtypeOf_eq_lastDesc vl p.1 d hld, hcont d hdm]
    rfl
  have hlen : ∀ r ∈ data.rows,
      r.length = 0 + ((sizesList vl).map (fun p => p.2)).sum := by
    intro r hr
    rw [Nat.zero_add, hwf.2 r hr, ← hcw]
    rfl
  have hrc := rowConcat_buildSlices data.rows (dtypeOf vl) (sizesList vl) 0
    hsz hdt hlen
  unfold tensordict_to_tensor
  cases hb : buildSlices data.rows (dtypeOf vl) (sizesList vl) 0 with
  | nil =>
    exfalso
    have hk := buildSlices_keys data.rows (dtypeOf vl) (sizesList vl) 0
    rw [hb] at hk
    exact hsz (List.map_eq_nil_iff.mp hk.symm)
  | cons p rest =>
    rw [hb] at hrc
    dsimp only
    rw [hrc]
    simp [List.drop_zero]

/-- Witness for C10 on a one-row, two-column continuous catalog. -/
theorem c10_witness :
    ∃ td, tensordict_from_variables_metadata ⟨[1, 2], [[3, 4]]⟩
        [⟨"a", VariableTypeEnum.continuous, none, none⟩,
         ⟨"b", VariableTypeEnum.continuous, none, none⟩] = .ok td ∧
      tensordict_to_tensor td = .ok [[3, 4]] :=
  c10_round_trip ⟨[1, 2], [[3, 4]]⟩
    [⟨"a", VariableTypeEnum.continuous, none, none⟩,
     ⟨"b", VariableTypeEnum.continuous, none, none⟩]
    (by decide) (by decide) (by decide) (by decide)

theorem lastLookup_zip_not_mem (cs : List ℤ) (ns : List String) (c : ℤ)
    (hc : c ∉ cs) : lastLookup (cs.zip ns) c = none := by
  rw [lastLookup_eq_none]
  intro hmem
  obtain ⟨p, hp, hfst⟩ := List.mem_map.mp hmem
  exact hc (hfst ▸ (List.of_mem_zip (a := p.1) (b := p.2) hp).1)

theorem colMap_positional (j : ℕ) :
    ∀ (cols : List ℤ) (vl : List VariableDescriptor), cols.Nodup →
      ∀ (h1 : j < cols.length) (h2 : j < vl.length),
        colMapLookup cols vl (cols.get ⟨j, h1⟩) =
          some (vl.get ⟨j, h2⟩).group_name := by
  induction j with
  | zero =>
    intro cols vl hnd h1 h2
    cases cols with
    | nil => cases h1
    | cons c cs =>
      cases vl with
      | nil => cases h2
      | cons d ds =>
        unfold colMapLookup
        simp only [List.map_cons, List.zip_cons_cons]
        rw [lastLookup]
        have hnone : lastLookup (cs.zip (ds.map (fun d => d.group_name)))
            ((c :: cs).get ⟨0, h1⟩) = none :=
          lastLookup_zip_not_mem _ _ _ (List.nodup_cons.mp hnd).1
        rw [hnone]
        dsimp only
        rw [if_pos (show c = (c :: cs).get ⟨0, h1⟩ from rfl)]
        rfl
  | succ j ih =>
    intro cols vl hnd h1 h2
    cases cols with
    | nil => cases h1
    | cons c cs =>
      cases vl with
      | nil => cases h2
      | cons d ds =>
        unfold colMapLookup
        simp only [List.map_cons, List.zip_cons_cons]
        rw [lastLookup]
        have hstep := ih cs ds (List.nodup_cons.mp hnd).2
          (Nat.lt_of_succ_lt_succ h1) (Nat.lt_of_succ_lt_succ h2)
        unfold colMapLookup at hstep
        have hidx : (c :: cs).get ⟨j + 1, h1⟩ =
            cs.get ⟨j, Nat.lt_of_succ_lt_succ h1⟩ := rfl
        rw [hidx, hstep]
        rfl

/-- C4 (amended): the experiment-file column map is `dict(zip(...))`: column
indices are paired positionally with the per-descriptor group names, truncated
to the shorter of the two lists; a length mismatch raises nothing by itself,
and only an index that ends up with no pair is a fatal lookup failure
(`KeyError`) when an environment uses it. -/
theorem c4_amended_column_mapping (cols : List ℤ) (vl : List VariableDescriptor) :
    (cols.Nodup → ∀ (j : ℕ) (h1 : j < cols.length) (h2 : j < vl.length),
      colMapLookup cols vl (cols.get ⟨j, h1⟩) =
        some (vl.get ⟨j, h2⟩).group_name) ∧
    (∀ env : IntervEnvironment, env.conditioning_idxs = none →
      (∃ idx ∈ env.intervention_idxs, colMapLookup cols vl idx = none) →
      load_interventions cols vl [env] = .error "KeyError") := by
  constructor
  · intro hnd j h1 h2
    exact colMap_positional j cols vl hnd h1 h2
  · intro env hcond hmissing
    unfold load_interventions load_intervention_env
    rw [hcond]
    dsimp only
    rw [resolveNodes_error_of_missing cols vl env.intervention_idxs hmissing]

/-- Counterexample to C4 as stated: `columns_to_nodes` has one entry while
the catalog declares two groups, yet loading the environment succeeds — the
zip silently truncates instead of failing with an IndexError. -/
theorem c4_counterexample :
    ([(0 : ℤ)].length ≠ (firstSeenNames exVl).length) ∧
    ([(0 : ℤ)].length ≠ exVl.length) ∧
    (load_interventions [0] exVl
      [⟨none, [0], [], exData, some exData⟩]).isOk = true := by
  refine ⟨by decide, by decide, ?_⟩
  rfl

/-- Witness for C4 (amended): index 0 maps to the first group, and an
environment naming the unmapped index 5 fails with a `KeyError`. -/
theorem c4_witness :
    colMapLookup [0, 1] exVl 0 = some "x" ∧
    load_interventions [0, 1] exVl
      [⟨none, [5], [], exData, some exData⟩] = .error "KeyError" :=
  ⟨(c4_amended_column_mapping [0, 1] exVl).1 (by decide) 0 (by decide) (by decide),
   (c4_amended_column_mapping [0, 1] exVl).2 ⟨none, [5], [], exData, some exData⟩
     rfl ⟨5, List.mem_singleton.mpr rfl, rfl⟩⟩

/-- C2: in counterfactual loading a null `reference_data` yields an absent
(none) reference in the result tuple without raising, while in intervention
loading a null `reference_data` raises a fatal RuntimeError once the test
batch itself reconstructs. -/
theorem c2_missing_reference (cols : List ℤ) (vl : List VariableDescriptor)
    (ienv : IntervEnvironment) (cenv : CFEnvironment) :
    (ienv.reference_data = none →
      ∀ condition_nodes intervention_nodes,
        (match ienv.conditioning_idxs with
         | none => Except.ok []
         | some idxs => resolveNodes cols vl idxs) = Except.ok condition_nodes →
        resolveNodes cols vl ienv.intervention_idxs = Except.ok intervention_nodes →
        (to_intervention ienv.test_data intervention_nodes condition_nodes
          vl).isOk = true →
        load_interventions cols vl [ienv] = .error "RuntimeError") ∧
    (cenv.reference_data = none →
      ∀ intervention_nodes,
        resolveNodes cols vl cenv.intervention_idxs = Except.ok intervention_nodes →
        (to_counterfactual cenv.test_data cenv.conditioning_values
          intervention_nodes vl).isOk = true →
        (resolveNodes cols vl cenv.effect_idxs).isOk = true →
        ∃ c eff, load_counterfactuals cols vl [cenv] = .ok [(c, none, eff)]) := by
  constructor
  · intro href condition_nodes intervention_nodes hcn hin hti
    obtain ⟨i, hi⟩ := exceptIsOk_exists hti
    unfold load_interventions load_intervention_env
    rw [hcn]
    dsimp only
    rw [hin]
    dsimp only
    rw [hi]
    dsimp only
    rw [href]
  · intro href intervention_nodes hin hti heff
    obtain ⟨c, hc⟩ := exceptIsOk_exists hti
    obtain ⟨effect_names, heffn⟩ := exceptIsOk_exists heff
    refine ⟨c, if effect_names.toFinset = ∅ then c.sampled_nodes
      else effect_names.toFinset, ?_⟩
    unfold load_counterfactuals load_counterfactual_env
    rw [hin]
    dsimp only
    rw [hc]
    dsimp only
    rw [href]
    dsimp only
    rw [heffn]
    rfl

/-- Witness for C2: loading `exEnvNoRef` raises RuntimeError; loading the
counterfactual `exCf` succeeds with an absent reference. -/
theorem c2_witness :
    load_interventions [0, 1] exVl [exEnvNoRef] = .error "RuntimeError" ∧
    ∃ c eff, load_counterfactuals [0, 1] exVl [exCf] = .ok [(c, none, eff)] :=
  ⟨(c2_missing_reference [0, 1] exVl exEnvNoRef exCf).1 rfl [] ["x"] rfl rfl rfl,
   (c2_missing_reference [0, 1] exVl exEnvNoRef exCf).2 rfl ["x"] rfl rfl rfl⟩

/-- C7: an environment with empty `effect_idxs` gets the full set of group
names present in the reconstructed record as its effect set; a non-empty
`effect_idxs` list gets the set of group names resolved from those indices,
duplicates collapsed. -/
theorem c7_effect_set (cols : List ℤ) (vl : List VariableDescriptor)
    (ienv : IntervEnvironment) (cenv : CFEnvironment) :
    (∀ condition_nodes intervention_nodes i ref r effect_names,
      (match ienv.conditioning_idxs with
       | none => Except.ok []
       | some idxs => resolveNodes cols vl idxs) = Except.ok condition_nodes →
      resolveNodes cols vl ienv.intervention_idxs = Except.ok intervention_nodes →
      to_intervention ienv.test_data intervention_nodes condition_nodes vl =
        .ok i →
      ienv.reference_data = some ref →
      to_intervention ref intervention_nodes condition_nodes vl = .ok r →
      resolveNodes cols vl ienv.effect_idxs = Except.ok effect_names →
      ((ienv.effect_idxs = [] →
        load_interventions cols vl [ienv] = .ok [(i, r, i.sampled_nodes)]) ∧
       (ienv.effect_idxs ≠ [] →
        load_interventions cols vl [ienv] =
          .ok [(i, r, effect_names.toFinset)]))) ∧
    (∀ intervention_nodes c reference effect_names,
      resolveNodes cols vl cenv.intervention_idxs = Except.ok intervention_nodes →
      to_counterfactual cenv.test_data cenv.conditioning_values
        intervention_nodes vl = .ok c →
      (match cenv.reference_data with
       | none => Except.ok Option.none
       | some ref_data =>
         match to_counterfactual ref_data cenv.conditioning_values
             intervention_nodes vl with
         | .error msg => Except.error msg
         | .ok r => Except.ok (some r)) = Except.ok reference →
      resolveNodes cols vl cenv.effect_idxs = Except.ok effect_names →
      ((cenv.effect_idxs = [] →
        load_counterfactuals cols vl [cenv] =
          .ok [(c, reference, c.sampled_nodes)]) ∧
       (cenv.effect_idxs ≠ [] →
        load_counterfactuals cols vl [cenv] =
          .ok [(c, reference, effect_names.toFinset)]))) := by
  constructor
  · intro condition_nodes intervention_nodes i ref r effect_names
      hcn hin hi href hr heff
    have hshape : load_interventions cols vl [ienv] =
        .ok [(i, r, if effect_names.toFinset = ∅ then i.sampled_nodes
          else effect_names.toFinset)] := by
      unfold load_interventions load_intervention_env
      rw [hcn]
      dsimp only
      rw [hin]
      dsimp only
      rw [hi]
      dsimp only
      rw [href]
      dsimp only
      rw [hr]
      dsimp only
      rw [heff]
      rfl
    constructor
    · intro hempty
      rw [hempty] at heff
      rw [resolveNodes_nil] at heff
      injection heff with heff
      rw [hshape, ← heff]
      rfl
    · intro hne
      have hlen := resolveNodes_length cols vl ienv.effect_idxs effect_names heff
      have hnn : effect_names ≠ [] := by
        intro hc
        rw [hc] at hlen
        exact hne (List.length_eq_zero.mp hlen.symm)
      rw [hshape, if_neg (fun hc => hnn ((List.toFinset_eq_empty_iff _).mp hc))]
  · intro intervention_nodes c reference effect_names hin hc href heff
    have hshape : load_counterfactuals cols vl [cenv] =
        .ok [(c, reference, if effect_names.toFinset = ∅ then c.sampled_nodes
          else effect_names.toFinset)] := by
      unfold load_counterfactuals load_counterfactual_env
      rw [hin]
      dsimp only
      rw [hc]
      dsimp only
      rw [href]
      dsimp only
      rw [heff]
      rfl
    constructor
    · intro hempty
      rw [hempty] at heff
      rw [resolveNodes_nil] at heff
      injection heff with heff
      rw [hshape, ← heff]
      rfl
    · intro hne
      have hlen := resolveNodes_length cols vl cenv.effect_idxs effect_names heff
      have hnn : effect_names ≠ [] := by
        intro hcn
        rw [hcn] at hlen
        exact hne (List.length_eq_zero.mp hlen.symm)
      rw [hshape, if_neg (fun hcn => hnn ((List.toFinset_eq_empty_iff _).mp hcn))]

/-- Witness for C7: `exEnv` (empty effect list) defaults to the sampled
nodes; `exCf` (effect column 1) resolves to the singleton set of `y`. -/
theorem c7_witness :
    (∃ i r, load_interventions [0, 1] exVl [exEnv] =
      .ok [(i, r, InterventionData.sampled_nodes i)]) ∧
    (∃ c, load_counterfactuals [0, 1] exVl [exCf] =
      .ok [(c, none, (["y"] : List String).toFinset)]) := by
  constructor
  · obtain ⟨i, hi⟩ := exceptIsOk_exists
      (e := to_intervention exData ["x"] [] exVl) rfl
    exact ⟨i, i, ((c7_effect_set [0, 1] exVl exEnv exCf).1 [] ["x"] i exData i []
      rfl rfl hi rfl hi rfl).1 rfl⟩
  · obtain ⟨c, hcok⟩ := exceptIsOk_exists
      (e := to_counterfactual exData exData ["x"] exVl) rfl
    exact ⟨c, ((c7_effect_set [0, 1] exVl exEnv exCf).2 ["x"] c none ["y"]
      rfl hcok rfl rfl).2 (by decide)⟩

theorem entryConst_true_iff (e : TDEntry) :
    entryConst e = true ↔ ∀ row ∈ e.values, row = e.values.headD [] := by
  rw [entryConst, List.all_eq_true]
  simp only [decide_eq_true_eq]

theorem entryConst_false_iff (e : TDEntry) :
    entryConst e = false ↔ ∃ row ∈ e.values, row ≠ e.values.headD [] := by
  rw [show (entryConst e = false) ↔ ¬(entryConst e = true) from by simp]
  rw [entryConst_true_iff]
  push_neg
  rfl

/-- C1: if any row of an intervened group in the sampled batch differs from
that group's first row, reconstruction (intervention or counterfactual) fails
with a fatal assertion error; when every intervened group is constant across
the batch, reconstruction succeeds and `intervention_values` holds exactly the
first row of each intervened group of the reconstructed batch. -/
theorem c1_constant_intervention (data base : NDArray)
    (nodes cond : List String) (vl : List VariableDescriptor)
    (hwf : data.wf2d) (hc : totalWidth vl = data.ncols) (hr : data.rows ≠ [])
    (hn : ∀ g ∈ nodes, g ∈ firstSeenNames vl)
    (td : TensorDictM)
    (htd : tensordict_from_variables_metadata data vl = .ok td) :
    ((∃ g ∈ nodes, ∃ e, alistLookup td.entries g = some e ∧
        ∃ row ∈ e.values, row ≠ e.values.headD []) →
      to_intervention data nodes cond vl =
        .error "AssertionError: intervention values differ across the batch" ∧
      to_counterfactual data base nodes vl =
        .error "AssertionError: intervention values differ across the batch") ∧
    ((∀ g ∈ nodes, ∀ e, alistLookup td.entries g = some e →
        ∀ row ∈ e.values, row = e.values.headD []) →
      nodes.Nodup →
      (∀ g ∈ cond, g ∈ firstSeenNames vl) → cond.Nodup →
      ∀ cs, get_categorical_sizes vl = .ok cs →
      (∃ r, to_intervention data nodes cond vl = .ok r ∧
        ∀ g ∈ nodes, ∃ e, alistLookup r.intervention_data.entries g = some e ∧
          alistLookup r.intervention_values.entries g = some (firstRowEntry e)) ∧
      (base.wf2d → totalWidth vl = base.ncols →
        ∃ r, to_counterfactual data base nodes vl = .ok r ∧
          ∀ g ∈ nodes, ∃ e, alistLookup r.counterfactual_data.entries g = some e ∧
            alistLookup r.intervention_values.entries g =
              some (firstRowEntry e))) := by
  constructor
  · intro hviol
    have hviol' : ∃ g ∈ nodes, ∃ e, alistLookup td.entries g = some e ∧
        entryConst e = false := by
      obtain ⟨g, hg, e, he, hrow⟩ := hviol
      exact ⟨g, hg, e, he, (entryConst_false_iff e).mpr hrow⟩
    exact ⟨to_intervention_error_of_violation data nodes cond vl hwf hc hr hn
        htd hviol',
      to_counterfactual_error_of_violation data base nodes vl hwf hc hr hn
        htd hviol'⟩
  · intro hconst hnd hcondm hcnd cs hcs
    have hconst' : ∀ g ∈ nodes, ∀ e, alistLookup td.entries g = some e →
        entryConst e = true :=
      fun g hg e he => (entryConst_true_iff e).mpr (hconst g hg e he)
    exact ⟨to_intervention_ok_spec data nodes cond vl hwf hc hr hn hcondm hnd
        hcnd hcs htd hconst',
      fun hbwf hbc => to_counterfactual_ok_spec data base nodes vl hwf hc hr
        hbwf hbc hn hnd hcs htd hconst'⟩

/-- Witness for C1: the batch `exDataBad` is not constant in the intervened
group `x`, so intervention and counterfactual reconstruction both fail with
the assertion error. -/
theorem c1_witness :
    to_intervention exDataBad ["x"] [] exVl =
      .error "AssertionError: intervention values differ across the batch" ∧
    to_counterfactual exDataBad exData ["x"] exVl =
      .error "AssertionError: intervention values differ across the batch" :=
  (c1_constant_intervention exDataBad exData ["x"] [] exVl (by decide) (by decide)
      (by decide) (by decide) exTdBad rfl).1
    ⟨"x", by decide, ⟨DType.float32, [[1], [2]]⟩, rfl, [2], by decide, by decide⟩

end Causica
